import Mathlib

/-
  Verification of the batch image-generation automator
  (prompt-file parsing, per-item descriptor management and the
  generation loop of src/main.py, with the v1.0 variant of the loop
  from src/v1.0/main.py where the two versions differ).

  Strings are modelled as `List Char`; the Python string operations
  used by the source (`str.strip`, `str.split(sep)`, `str.split(sep, 1)`,
  `str.replace(' ', '_')`, `os.path.splitext`) are embedded below with
  Python's semantics.
-/

set_option maxHeartbeats 1000000

abbrev Str := List Char

/-- Whitespace test matching Python `str.strip()` on the characters that
can occur in the repository's text files. -/
def pyIsSpace (c : Char) : Bool :=
  c = ' ' || c = '\t' || c = '\n' || c = '\r' || c = '\x0b' || c = '\x0c'

/-- Python `str.lstrip()`. -/
def lstrip (s : Str) : Str := s.dropWhile pyIsSpace

/-- Python `str.rstrip()`. -/
def rstrip (s : Str) : Str := (s.reverse.dropWhile pyIsSpace).reverse

/-- Python `str.strip()`. -/
def pyStrip (s : Str) : Str := rstrip (lstrip s)

/-- Index of the first occurrence of the substring `sep` in `s`
(Python `str.find`): `some i` when `sep` occurs first at index `i`,
`none` when `sep` does not occur as a substring at all. -/
def findSub (sep : Str) (s : Str) : Option Nat :=
  if sep.isPrefixOf s then some 0
  else
    match s with
    | [] => none
    | _ :: t => (findSub sep t).map (· + 1)

/-- The worker of `pySplit`, structurally recursive on a fuel bound so
that it evaluates inside the kernel; each cut consumes at least one
character, so any fuel above the string's length gives Python's
behaviour (`pySplitFuel_congr` below). -/
def pySplitFuel (c0 : Char) (crest : Str) : Nat → Str → List Str
  | 0, s => [s]
  | fuel + 1, s =>
      match findSub (c0 :: crest) s with
      | none => [s]
      | some i =>
          s.take i :: pySplitFuel c0 crest fuel (s.drop (i + crest.length + 1))

/-- Python `s.split(sep)` for a nonempty separator `c0 :: crest`:
repeatedly cut at the leftmost occurrence of the separator. -/
def pySplit (c0 : Char) (crest : Str) (s : Str) : List Str :=
  pySplitFuel c0 crest (s.length + 1) s

/-- Python `s.split(c, 1)` restricted to what the source needs: `some (a, b)`
when `c` occurs in `s`, splitting at the first occurrence; `none` when `c`
does not occur (the source guards the split with `if c in line`). -/
def splitOnce (c : Char) (s : Str) : Option (Str × Str) :=
  match s with
  | [] => none
  | x :: t =>
      if x = c then some ([], t)
      else (splitOnce c t).map (fun p => (x :: p.1, p.2))

/-- Lookup in an insertion-ordered string-keyed mapping (Python `dict`
as a `List (key, value)` in insertion order): value of the first (and,
under the `dictSet` discipline, only) entry with key `k`. -/
def dictGet {α : Type} (k : Str) (d : List (Str × α)) : Option α :=
  match d with
  | [] => none
  | kv :: rest => if kv.1 = k then some kv.2 else dictGet k rest

/-- Python `d[k] = v`: replace the value in place if `k` is present
(keeping its position, as Python 3.7+ dicts do), else append at the end. -/
def dictSet {α : Type} (k : Str) (v : α) (d : List (Str × α)) : List (Str × α) :=
  match d with
  | [] => [(k, v)]
  | kv :: rest => if kv.1 = k then (kv.1, v) :: rest else kv :: dictSet k v rest

/-- Python `d[k] += ext` on string values. In the source this is only
reached when `k` is present (the current key was always set first), so
the no-entry case cannot occur; the embedding then leaves `d` unchanged. -/
def dictAppend (k : Str) (ext : Str) (d : List (Str × Str)) : List (Str × Str) :=
  d.map (fun kv => if kv.1 = k then (kv.1, kv.2 ++ ext) else kv)

/-- `load_prompts` (src/main.py lines 56-59), on the file's content:
split on every occurrence of the substring `---`, strip each piece,
keep the nonblank ones. -/
def load_prompts (content : Str) : List Str :=
  ((pySplit '-' ['-', '-'] content).map pyStrip).filter (fun b => b ≠ [])

/-- One step of the line scan of `parse_prompt_block` (src/main.py
lines 65-72). State: the record built so far and the most recently
started field's key (`current_key`).  The continuation guard
`if current_key:` is a Python truthiness test: it is false both for
`None` (no colon line seen yet) and for the empty string (the last
label stripped to nothing), so in either case the colon-free line is
dropped. -/
def parseStep (st : List (Str × Str) × Option Str) (line : Str) :
    List (Str × Str) × Option Str :=
  match splitOnce ':' line with
  | some kv => (dictSet (pyStrip kv.1) (pyStrip kv.2) st.1, some (pyStrip kv.1))
  | none =>
      match st.2 with
      | some k =>
          if k = [] then st
          else (dictAppend k (' ' :: pyStrip line) st.1, st.2)
      | none => st

/-- The line scan of `parse_prompt_block`, over an explicit line list. -/
def parseLines (lines : List Str) : List (Str × Str) × Option Str :=
  lines.foldl parseStep ([], none)

/-- `parse_prompt_block` (src/main.py lines 61-73): strip the block,
split into lines, scan them. -/
def parse_prompt_block (block : Str) : List (Str × Str) :=
  (parseLines (pySplit '\n' [] (pyStrip block))).1

/-- `create_prompts` (src/main.py lines 75-86), on the prompt file's
content: one parsed record per nonblank block. -/
def create_prompts (content : Str) : List (List (Str × Str)) :=
  (load_prompts content).map parse_prompt_block

/-- The separator token [dash, dash, dash] written without literal dashes
only to keep it greppable as a definition. -/
def sepDashes : Str := ['-', '-', '-']

/-- A block joiner: blocks joined by a separator line, i.e. the content
`b1 newline dashes newline b2 ...`. -/
def sepLine : Str := '\n' :: sepDashes ++ ['\n']

/-- Modelled from the spec: the spec-side notion of blocks, used only to
compare against the code. "split into blocks wherever a line consisting
solely of a record-separator token occurs; trim blank blocks": split the
content into lines, cut at lines equal to the separator token, rejoin
each group, strip, keep the nonblank ones. -/
def specSepLineBlocks (content : Str) : List Str :=
  ((((pySplit '\n' [] content).splitOnP (fun l => l = sepDashes)).map
      (fun ls => pyStrip (List.intercalate ['\n'] ls))).filter (fun b => b ≠ []))

/-- The keys of a record, in insertion order. -/
def dictKeys {α : Type} (d : List (Str × α)) : List Str := d.map Prod.fst

/-- The trimmed labels of the colon lines of a line list, in order. -/
def linesLabels (lines : List Str) : List Str :=
  lines.filterMap (fun l => (splitOnce ':' l).map (fun p => pyStrip p.1))

/-- The trimmed labels of the colon lines of a block, in order. -/
def blockLabels (block : Str) : List Str :=
  linesLabels (pySplit '\n' [] (pyStrip block))

/- ## ItemStore: `generate_json_files` (src/main.py lines 136-154) -/

/-- A JSON value as it occurs in a written descriptor: either a string
field copied from the record or an integer control field. -/
inductive JVal where
  | s (v : Str)
  | i (v : Int)
deriving DecidableEq

def nameKey : Str := String.toList "Name"

def imagesKey : Str := String.toList "Number of Images"

def iterationsKey : Str := String.toList "Number of Iterations"

def seedKey : Str := String.toList "Seed"

/-- The item directory name chosen by `generate_json_files`:
`data.get('Name', 'Unnamed').replace(' ', '_')`. -/
def itemDirName (data : List (Str × Str)) : Str :=
  ((dictGet nameKey data).getD (String.toList "Unnamed")).map
    (fun c => if c = ' ' then '_' else c)

/-- The content of the `prompt.json` written by `generate_json_files`
for one record: the record minus its `Name` entry, then the three
control fields assigned in source order (images, iterations, seed). -/
def descriptorJson (data : List (Str × Str)) (default_seed : Int) :
    List (Str × JVal) :=
  let woName := (data.filter (fun kv => kv.1 ≠ nameKey)).map
    (fun kv => (kv.1, JVal.s kv.2))
  dictSet seedKey (JVal.i default_seed)
    (dictSet iterationsKey (JVal.i 1)
      (dictSet imagesKey (JVal.i 1) woName))

/-- The content of the `prompt.json` written by the v1.0
`generate_json_files` (src/v1.0/main.py lines 138-156) for one record:
the record minus its `Name` entry, then the three control fields
assigned in source order — but carrying the run-level global
`num_images` and `num_iterations` values, not the constant 1. -/
def descriptorJsonV1 (data : List (Str × Str))
    (default_seed num_images num_iterations : Int) : List (Str × JVal) :=
  let woName := (data.filter (fun kv => kv.1 ≠ nameKey)).map
    (fun kv => (kv.1, JVal.s kv.2))
  dictSet seedKey (JVal.i default_seed)
    (dictSet iterationsKey (JVal.i num_iterations)
      (dictSet imagesKey (JVal.i num_images) woName))

/- ## The generation loop: `generate_images` (src/main.py lines 156-246)
     and its v1.0 variant (src/v1.0/main.py lines 158-251).

   The loop's interactions with the outside world (directory listing,
   descriptor files, the HTTP endpoint, written image files) are made
   explicit: a `World` supplies the item listing, each item's descriptor
   state and each request's outcome, and the loop produces the ordered
   trace of its externally visible actions plus the exception, if any,
   that escapes it (nothing in `generate_images` catches exceptions other
   than `requests.exceptions.RequestException` around the POST).  Image
   payloads are modelled by their decode result: `some bytes` for a
   payload `base64.b64decode` accepts, `none` for a malformed one (where
   `b64decode` raises `binascii.Error`).  The pause busy-wait at the two
   marked points of the loop reads a flag and sleeps; it is timing
   behaviour and is modelled separately below (`busyWait`). -/

abbrev Bytes := List Nat

/-- The fields of a loaded `prompt.json` that `generate_images` reads,
after the `int(...)` coercions the source applies; a `none` field is one
absent from the JSON object (`data.get` falls back). -/
structure Desc where
  numImages : Option Int := none
  numIterations : Option Int := none
  seed : Option Int := none
  positivePrompt : Option Str := none
  negativePrompt : Option Str := none
deriving DecidableEq

/-- State of an item's `prompt.json` on disk: absent (`open` raises
`FileNotFoundError`), unparsable (`json.load` raises), or loaded. -/
inductive DescState where
  | missing
  | malformed
  | ok (d : Desc)
deriving DecidableEq

/-- The run settings dict as used by the loop.  `lora_weight` and
`cfg_scale` are floats in the source; they are carried here in their
formatted textual form, which is all the loop ever does with them
(string interpolation into the prompt tag / the JSON payload). -/
structure Settings where
  model : Str
  lora : Str
  loraWeight : Str
  samplingMethod : Str
  schedulerName : Str
  samplingSteps : Int
  width : Int
  height : Int
  cfgScale : Str
  seed : Int
  apiEndpoint : Str
deriving DecidableEq

/-- `os.path.splitext(p)[0]` for a bare file name (no separators): cut
at the last dot, unless every character before that dot is itself a dot
(Python keeps leading-dot names such as `.bashrc` whole). -/
def splitextRoot (s : Str) : Str :=
  match s.reverse.findIdx? (fun c => c = '.') with
  | none => s
  | some k =>
      let d := s.length - 1 - k
      if (s.take d).all (fun c => c = '.') then s else s.take d

/-- The JSON payload of the generation POST (src/main.py lines 203-218). -/
structure Payload where
  prompt : Str
  negative_prompt : Str
  steps : Int
  cfg_scale : Str
  width : Int
  height : Int
  sampler_name : Str
  seed : Int
  batch_size : Int
  n_iter : Int
  schedulerName : Str
  sd_model_checkpoint : Str
deriving DecidableEq

/-- Payload construction, including the LoRA tag appended to the
positive prompt when a LoRA is configured (src/main.py lines 191-218). -/
def mkPayload (s : Settings) (d : Desc) (seed : Int) (numImages : Int) :
    Payload :=
  let pos0 := d.positivePrompt.getD []
  let pos :=
    if s.lora ≠ [] then
      pos0 ++ String.toList " <lora:" ++ splitextRoot s.lora ++ [':'] ++
        s.loraWeight ++ ['>']
    else pos0
  { prompt := pos
    negative_prompt := d.negativePrompt.getD []
    steps := s.samplingSteps
    cfg_scale := s.cfgScale
    width := s.width
    height := s.height
    sampler_name := s.samplingMethod
    seed := seed
    batch_size := 1
    n_iter := numImages
    schedulerName := s.schedulerName
    sd_model_checkpoint := s.model }

/-- Outcome of one generation POST: `fail` for a network error or a
non-2xx status (both become `requests.exceptions.RequestException`),
`ok` for a 2xx response carrying the base64 image payloads (each given
by its decode result). -/
inductive ReqOutcome where
  | fail
  | ok (images : List (Option Bytes))
deriving DecidableEq

/-- The loop's externally visible actions, in order. -/
inductive Event where
  | iterDir (item : Str) (iter : Nat)
  | request (item : Str) (iter : Nat) (payload : Payload)
  | iterFailed (item : Str) (iter : Nat)
  | image (item : Str) (iter : Nat) (idx : Nat) (bytes : Bytes)
  | listenerStart
  | listenerStop
deriving DecidableEq

/-- An exception that escapes the loop uncaught. -/
inductive Abort where
  | descriptorMissing (item : Str)
  | descriptorMalformed (item : Str)
  | decodeFailed (item : Str) (iter : Nat) (idx : Nat)
deriving DecidableEq

/-- The environment the loop runs against. -/
structure World where
  items : List Str
  descriptor : Str → DescState
  request : Str → Nat → ReqOutcome

/-- Run a sequence of units, accumulating their traces; an uncaught
exception in one unit ends the run there (later units never execute). -/
def seqRun {α : Type} (f : α → List Event × Option Abort) :
    List α → List Event × Option Abort
  | [] => ([], none)
  | x :: xs =>
      match f x with
      | (evs, some a) => (evs, some a)
      | (evs, none) =>
          match seqRun f xs with
          | (evs2, r) => (evs ++ evs2, r)

/-- The image-saving loop over a 2xx response (src/main.py lines
233-237): decode each payload in order and write
`item_iter_(idx+1).png`; a malformed payload raises out of the loop. -/
def saveImages (item : Str) (iter : Nat) (imgs : List (Option Bytes)) :
    List Event × Option Abort :=
  seqRun (fun p =>
      match p.2 with
      | some b => ([Event.image item iter (p.1 + 1) b], none)
      | none => ([], some (Abort.decodeFailed item iter (p.1 + 1))))
    imgs.enum

/-- One iteration of the inner loop (src/main.py lines 187-246): create
the iteration directory, send the POST, then either record the failure
and continue or save the returned images. -/
def runIteration (s : Settings) (w : World) (d : Desc)
    (numImages seed : Int) (item : Str) (iter : Nat) :
    List Event × Option Abort :=
  let p := mkPayload s d seed numImages
  match w.request item iter with
  | ReqOutcome.fail =>
      ([Event.iterDir item iter, Event.request item iter p,
        Event.iterFailed item iter], none)
  | ReqOutcome.ok imgs =>
      match saveImages item iter imgs with
      | (evs, r) =>
          (Event.iterDir item iter :: Event.request item iter p :: evs, r)

/-- Python `range(1, n + 1)`. -/
def iterRange (n : Int) : List Nat := List.range' 1 n.toNat

/-- Processing of one item by `generate_images` in src/main.py (lines
162-246): load the descriptor (uncaught exception if absent or
unparsable), take image/iteration counts and seed from it with the
coded fallbacks, run the iterations. -/
def runItem (s : Settings) (w : World) (item : Str) :
    List Event × Option Abort :=
  match w.descriptor item with
  | DescState.missing => ([], some (Abort.descriptorMissing item))
  | DescState.malformed => ([], some (Abort.descriptorMalformed item))
  | DescState.ok d =>
      seqRun
        (runIteration s w d (d.numImages.getD 1) (d.seed.getD s.seed) item)
        (iterRange (d.numIterations.getD 1))

/-- `generate_images` of src/main.py, over the enumerated items. -/
def generate_images (s : Settings) (w : World) :
    List Event × Option Abort :=
  seqRun (runItem s w) w.items

/-- Processing of one item by `generate_images` in src/v1.0/main.py
(lines 167-251): a missing descriptor is skipped (`continue`, lines
170-171); an unparsable one still raises; only the seed is taken from
the descriptor — image and iteration counts come from the run-level
arguments. -/
def runItemV1 (s : Settings) (w : World) (numImages numIterations : Int)
    (item : Str) : List Event × Option Abort :=
  match w.descriptor item with
  | DescState.missing => ([], none)
  | DescState.malformed => ([], some (Abort.descriptorMalformed item))
  | DescState.ok d =>
      seqRun (runIteration s w d numImages (d.seed.getD s.seed) item)
        (iterRange numIterations)

/-- `generate_images` of src/v1.0/main.py (the existing-base-dir case;
when the base directory is absent the function returns with no work). -/
def generate_images_v1 (s : Settings) (w : World)
    (numImages numIterations : Int) : List Event × Option Abort :=
  seqRun (runItemV1 s w numImages numIterations) w.items

/-- The image-generation phase of `main` (src/main.py lines 370-384):
start the keyboard listener, generate character images, generate scene
images, stop the listener.  There is no `try/finally`: an exception
escaping either `generate_images` call propagates past
`stop_keyboard_listener()`, which then never runs. -/
def imagesPhase (s : Settings) (wc ws : World) :
    List Event × Option Abort :=
  match generate_images s wc with
  | (evs1, some a) => (Event.listenerStart :: evs1, some a)
  | (evs1, none) =>
      match generate_images s ws with
      | (evs2, some a) => (Event.listenerStart :: evs1 ++ evs2, some a)
      | (evs2, none) =>
          (Event.listenerStart :: evs1 ++ evs2 ++ [Event.listenerStop], none)

/- ## PauseController: the busy-wait (src/main.py lines 199-201 and
     244-246) and the listener toggle (lines 26-34).

   `while paused: time.sleep(0.5)` polls the shared flag at 0.5s steps.
   Time is measured in milliseconds; `flag t` is the value the listener
   thread has left in the shared boolean at instant `t`.  `busyWait flag
   t0 fuel = some k` means the wait-check entered at instant `t0`
   returns after `k` sleeps, at instant `t0 + 500 * k`; `none` means it
   is still blocked after `fuel` polls (the loop issues no request for
   as long as the check has not returned). -/

def busyWait (flag : Nat → Bool) : Nat → Nat → Option Nat
  | _, 0 => none
  | t0, fuel + 1 =>
      if flag t0 then (busyWait flag (t0 + 500) fuel).map (· + 1)
      else some 0

/-- The effect on the shared flag of pressing the pause key twice (pause
then resume): the flag is inverted exactly on the interval from the
first press `a` to the second press `b`, and unchanged outside it. -/
def toggleTwice (flag : Nat → Bool) (a b : Nat) : Nat → Bool :=
  fun t => if a ≤ t ∧ t < b then !flag t else flag t

/- ## Concrete fixtures used by witnesses and counterexamples -/

def strA : Str := ['A']

def strB : Str := ['B']

/-- A freshly materialized descriptor before any hand edit would be
loaded with every optional field present; this one has none set, so
every fallback of the loop is exercised. -/
def descEmpty : Desc := ⟨none, none, none, none, none⟩

/-- A descriptor hand-edited to 3 iterations, 2 images per request and
seed 7. -/
def descEdited : Desc := ⟨some 2, some 3, some 7, none, none⟩

def settingsEx : Settings :=
  ⟨[], [], [], [], [], 30, 512, 768, [], 11, []⟩

-- Item A's request fails; item B's succeeds with one decodable image.
def worldC2 : World :=
  ⟨[strA, strB], fun _ => DescState.ok descEmpty,
   fun it _ => if it = strB then ReqOutcome.ok [some [7]] else ReqOutcome.fail⟩

-- Item A's descriptor file is absent; item B's is fine.
def worldC6 : World :=
  ⟨[strA, strB],
   fun it => if it = strA then DescState.missing else DescState.ok descEmpty,
   fun _ _ => ReqOutcome.fail⟩

-- Item A's descriptor file exists but is unparsable; item B's is fine.
def worldC6m : World :=
  ⟨[strA, strB],
   fun it => if it = strA then DescState.malformed else DescState.ok descEmpty,
   fun _ _ => ReqOutcome.fail⟩

-- Item A's response is 2xx but carries one malformed base64 payload.
def worldC7 : World :=
  ⟨[strA, strB], fun _ => DescState.ok descEmpty,
   fun it _ => if it = strA then ReqOutcome.ok [none] else ReqOutcome.fail⟩

-- One item whose hand-edited descriptor requests 3 iterations.
def worldC1 : World :=
  ⟨[strA], fun _ => DescState.ok descEdited, fun _ _ => ReqOutcome.fail⟩

-- A world with nothing to process.
def worldEmpty : World :=
  ⟨[], fun _ => DescState.ok descEmpty, fun _ _ => ReqOutcome.fail⟩

/- ## Helper lemmas about the loop combinators -/

theorem seqRun_cons_abort {α : Type} {f : α → List Event × Option Abort}
    {x : α} {xs : List α} {a : Abort} (h : (f x).2 = some a) :
    seqRun f (x :: xs) = ((f x).1, some a) := by
  cases hfx : f x with
  | mk evs r =>
      rw [hfx] at h
      simp only at h
      subst h
      simp [seqRun, hfx]

theorem seqRun_cons_none {α : Type} {f : α → List Event × Option Abort}
    {x : α} {xs : List α} (h : (f x).2 = none) :
    seqRun f (x :: xs) = ((f x).1 ++ (seqRun f xs).1, (seqRun f xs).2) := by
  cases hfx : f x with
  | mk evs r =>
      rw [hfx] at h
      simp only at h
      subst h
      cases hrest : seqRun f xs with
      | mk evs2 r2 => simp [seqRun, hfx, hrest]

theorem seqRun_none_iff {α : Type} (f : α → List Event × Option Abort)
    (xs : List α) :
    (seqRun f xs).2 = none ↔ ∀ x ∈ xs, (f x).2 = none := by
  induction xs with
  | nil => simp [seqRun]
  | cons x xs ih =>
      cases hfx : (f x).2 with
      | none =>
          rw [seqRun_cons_none hfx]
          simp [hfx, ih]
      | some a =>
          rw [seqRun_cons_abort hfx]
          simp only [List.mem_cons]
          constructor
          · intro h; exact absurd h (by simp)
          · intro h
            have := h x (Or.inl rfl)
            rw [hfx] at this
            exact absurd this (by simp)

theorem seqRun_fst_of_none {α : Type} (f : α → List Event × Option Abort)
    (xs : List α) (h : ∀ x ∈ xs, (f x).2 = none) :
    (seqRun f xs).1 = xs.flatMap (fun x => (f x).1) := by
  induction xs with
  | nil => simp [seqRun]
  | cons x xs ih =>
      have hx : (f x).2 = none := h x (List.mem_cons_self x xs)
      rw [seqRun_cons_none hx]
      simp only [List.flatMap_cons]
      rw [ih (fun y hy => h y (List.mem_cons_of_mem x hy))]

theorem mem_seqRun {α : Type} {f : α → List Event × Option Abort}
    {xs : List α} {e : Event} (h : e ∈ (seqRun f xs).1) :
    ∃ x ∈ xs, e ∈ (f x).1 := by
  induction xs with
  | nil => simp [seqRun] at h
  | cons x xs ih =>
      cases hfx : (f x).2 with
      | none =>
          rw [seqRun_cons_none hfx] at h
          rcases List.mem_append.mp h with h1 | h2
          · exact ⟨x, List.mem_cons_self x xs, h1⟩
          · rcases ih h2 with ⟨y, hy, hey⟩
            exact ⟨y, List.mem_cons_of_mem x hy, hey⟩
      | some a =>
          rw [seqRun_cons_abort hfx] at h
          exact ⟨x, List.mem_cons_self x xs, h⟩

theorem mem_seqRun_of_none {α : Type} {f : α → List Event × Option Abort}
    {xs : List α} {x : α} {e : Event}
    (hz : (seqRun f xs).2 = none) (hx : x ∈ xs) (he : e ∈ (f x).1) :
    e ∈ (seqRun f xs).1 := by
  rw [seqRun_fst_of_none f xs ((seqRun_none_iff f xs).mp hz)]
  exact List.mem_flatMap.mpr ⟨x, hx, he⟩

theorem filterMap_seqRun_nil {α β : Type} (g : Event → Option β)
    (f : α → List Event × Option Abort) (xs : List α)
    (h : ∀ x ∈ xs, ((f x).1).filterMap g = []) :
    ((seqRun f xs).1).filterMap g = [] := by
  induction xs with
  | nil => simp [seqRun]
  | cons x xs ih =>
      cases hfx : (f x).2 with
      | none =>
          rw [seqRun_cons_none hfx]
          rw [List.filterMap_append, h x (List.mem_cons_self x xs),
            ih (fun y hy => h y (List.mem_cons_of_mem x hy))]
          rfl
      | some a =>
          rw [seqRun_cons_abort hfx]
          exact h x (List.mem_cons_self x xs)

theorem filterMap_seqRun_single {α β : Type} (g : Event → Option β)
    (f : α → List Event × Option Abort) (xs : List α) (x0 : α)
    (hnd : xs.Nodup) (hmem : x0 ∈ xs)
    (hz : (seqRun f xs).2 = none)
    (hother : ∀ x ∈ xs, x ≠ x0 → ((f x).1).filterMap g = []) :
    ((seqRun f xs).1).filterMap g = ((f x0).1).filterMap g := by
  induction xs with
  | nil => simp at hmem
  | cons x xs ih =>
      have hall := (seqRun_none_iff f (x :: xs)).mp hz
      have hx : (f x).2 = none := hall x (List.mem_cons_self x xs)
      rw [seqRun_cons_none hx]
      rw [List.filterMap_append]
      by_cases hx0 : x = x0
      · subst hx0
        have hrest : ((seqRun f xs).1).filterMap g = [] := by
          apply filterMap_seqRun_nil
          intro y hy
          apply hother y (List.mem_cons_of_mem x hy)
          intro hyx
          subst hyx
          exact (List.nodup_cons.mp hnd).1 hy
        rw [hrest, List.append_nil]
      · have hx' : ((f x).1).filterMap g = [] :=
          hother x (List.mem_cons_self x xs) hx0
        rw [hx', List.nil_append]
        have hmem' : x0 ∈ xs := by
          rcases List.mem_cons.mp hmem with h | h
          · exact absurd h.symm hx0
          · exact h
        exact ih (List.nodup_cons.mp hnd).2 hmem'
          ((seqRun_none_iff f xs).mpr
            (fun y hy => hall y (List.mem_cons_of_mem x hy)))
          (fun y hy => hother y (List.mem_cons_of_mem x hy))

theorem filterMap_flatMap {α β γ : Type} (l : List α) (g : α → List β)
    (f : β → Option γ) :
    (l.flatMap g).filterMap f = l.flatMap (fun a => (g a).filterMap f) := by
  induction l with
  | nil => simp
  | cons x xs ih => simp [List.filterMap_append, ih]

/-- Which item an event belongs to (`none` for the listener events). -/
def evItemOf : Event → Option Str
  | Event.iterDir a _ => some a
  | Event.request a _ _ => some a
  | Event.iterFailed a _ => some a
  | Event.image a _ _ _ => some a
  | Event.listenerStart => none
  | Event.listenerStop => none

/-- Which iteration an event belongs to. -/
def evIterOf : Event → Option Nat
  | Event.iterDir _ j => some j
  | Event.request _ j _ => some j
  | Event.iterFailed _ j => some j
  | Event.image _ j _ _ => some j
  | Event.listenerStart => none
  | Event.listenerStop => none

/-- The iteration indices of the iteration directories created for
`item`, in creation order. -/
def iterDirsOf (item : Str) (evs : List Event) : List Nat :=
  evs.filterMap (fun e =>
    match e with
    | Event.iterDir a j => if a = item then some j else none
    | _ => none)

/-- The payloads of the generation requests sent for `item`, in order. -/
def payloadsOf (item : Str) (evs : List Event) : List Payload :=
  evs.filterMap (fun e =>
    match e with
    | Event.request a _ p => if a = item then some p else none
    | _ => none)

theorem mem_saveImages {item : Str} {iter : Nat} {imgs : List (Option Bytes)}
    {e : Event} (h : e ∈ (saveImages item iter imgs).1) :
    ∃ k b, e = Event.image item iter k b := by
  rcases mem_seqRun h with ⟨p, _, hep⟩
  cases hp2 : p.2 with
  | some b =>
      rw [hp2] at hep
      simp only [List.mem_singleton] at hep
      exact ⟨p.1 + 1, b, hep⟩
  | none =>
      rw [hp2] at hep
      simp at hep

theorem runIteration_fail {s : Settings} {w : World} {d : Desc}
    {nI sd : Int} {item : Str} {iter : Nat}
    (hreq : w.request item iter = ReqOutcome.fail) :
    runIteration s w d nI sd item iter =
      ([Event.iterDir item iter,
        Event.request item iter (mkPayload s d sd nI),
        Event.iterFailed item iter], none) := by
  unfold runIteration
  rw [hreq]

theorem runIteration_ok {s : Settings} {w : World} {d : Desc}
    {nI sd : Int} {item : Str} {iter : Nat} {imgs : List (Option Bytes)}
    (hreq : w.request item iter = ReqOutcome.ok imgs) :
    runIteration s w d nI sd item iter =
      (Event.iterDir item iter ::
        Event.request item iter (mkPayload s d sd nI) ::
        (saveImages item iter imgs).1,
       (saveImages item iter imgs).2) := by
  unfold runIteration
  rw [hreq]

theorem mem_runIteration {s : Settings} {w : World} {d : Desc}
    {nI sd : Int} {item : Str} {iter : Nat} {e : Event}
    (h : e ∈ (runIteration s w d nI sd item iter).1) :
    evItemOf e = some item ∧ evIterOf e = some iter := by
  cases hreq : w.request item iter with
  | fail =>
      rw [runIteration_fail hreq] at h
      simp only [List.mem_cons, List.not_mem_nil, or_false] at h
      rcases h with h | h | h <;> subst h <;> simp [evItemOf, evIterOf]
  | ok imgs =>
      rw [runIteration_ok hreq] at h
      simp only [List.mem_cons] at h
      rcases h with h | h | h
      · subst h; simp [evItemOf, evIterOf]
      · subst h; simp [evItemOf, evIterOf]
      · rcases mem_saveImages h with ⟨k, b, hb⟩
        subst hb
        simp [evItemOf, evIterOf]

theorem mem_runItem {s : Settings} {w : World} {x : Str} {e : Event}
    (h : e ∈ (runItem s w x).1) :
    ∃ d, w.descriptor x = DescState.ok d ∧
      ∃ j ∈ iterRange (d.numIterations.getD 1),
        e ∈ (runIteration s w d (d.numImages.getD 1) (d.seed.getD s.seed)
          x j).1 := by
  unfold runItem at h
  cases hd : w.descriptor x with
  | missing => rw [hd] at h; simp at h
  | malformed => rw [hd] at h; simp at h
  | ok d =>
      rw [hd] at h
      rcases mem_seqRun h with ⟨j, hj, hej⟩
      exact ⟨d, rfl, j, hj, hej⟩

theorem evItemOf_mem_runItem {s : Settings} {w : World} {x : Str} {e : Event}
    (h : e ∈ (runItem s w x).1) : evItemOf e = some x := by
  rcases mem_runItem h with ⟨d, _, j, _, hej⟩
  exact (mem_runIteration hej).1

theorem image_not_mem_generate_of_fail {s : Settings} {w : World}
    {a : Str} {i k : Nat} {b : Bytes}
    (hreq : w.request a i = ReqOutcome.fail) :
    Event.image a i k b ∉ (generate_images s w).1 := by
  intro h
  rcases mem_seqRun h with ⟨x, _, hex⟩
  have hx : x = a := by
    have := evItemOf_mem_runItem hex
    simp only [evItemOf] at this
    exact (Option.some_inj.mp this).symm
  subst hx
  rcases mem_runItem hex with ⟨d, _, j, _, hej⟩
  have hj : j = i := by
    have := (mem_runIteration hej).2
    simp only [evIterOf] at this
    exact (Option.some_inj.mp this).symm
  subst hj
  rw [runIteration_fail hreq] at hej
  simp at hej

theorem iterDirsOf_nil_of_ne {it x : Str} (hx : x ≠ it) (evs : List Event)
    (h : ∀ e ∈ evs, evItemOf e = some x) : iterDirsOf it evs = [] := by
  apply List.filterMap_eq_nil_iff.mpr
  intro e he
  have hii := h e he
  cases e with
  | iterDir a j =>
      simp only [evItemOf, Option.some_inj] at hii
      subst hii
      simp [hx]
  | request a j p => rfl
  | iterFailed a j => rfl
  | image a j k b => rfl
  | listenerStart => rfl
  | listenerStop => rfl

theorem payloadsOf_nil_of_ne {it x : Str} (hx : x ≠ it) (evs : List Event)
    (h : ∀ e ∈ evs, evItemOf e = some x) : payloadsOf it evs = [] := by
  apply List.filterMap_eq_nil_iff.mpr
  intro e he
  have hii := h e he
  cases e with
  | request a j p =>
      simp only [evItemOf, Option.some_inj] at hii
      subst hii
      simp [hx]
  | iterDir a j => rfl
  | iterFailed a j => rfl
  | image a j k b => rfl
  | listenerStart => rfl
  | listenerStop => rfl

theorem iterDirsOf_saveImages (it item : Str) (iter : Nat)
    (imgs : List (Option Bytes)) :
    iterDirsOf it (saveImages item iter imgs).1 = [] := by
  apply List.filterMap_eq_nil_iff.mpr
  intro e he
  rcases mem_saveImages he with ⟨k, b, hb⟩
  subst hb
  rfl

theorem payloadsOf_saveImages (it item : Str) (iter : Nat)
    (imgs : List (Option Bytes)) :
    payloadsOf it (saveImages item iter imgs).1 = [] := by
  apply List.filterMap_eq_nil_iff.mpr
  intro e he
  rcases mem_saveImages he with ⟨k, b, hb⟩
  subst hb
  rfl

theorem iterDirsOf_runIteration_self (s : Settings) (w : World) (d : Desc)
    (nI sd : Int) (item : Str) (j : Nat) :
    iterDirsOf item (runIteration s w d nI sd item j).1 = [j] := by
  cases hreq : w.request item j with
  | fail =>
      rw [runIteration_fail hreq]
      simp [iterDirsOf]
  | ok imgs =>
      rw [runIteration_ok hreq]
      have hsave := iterDirsOf_saveImages item item j imgs
      simp only [iterDirsOf, List.filterMap_cons] at hsave ⊢
      simp [hsave]

theorem payloadsOf_runIteration_self (s : Settings) (w : World) (d : Desc)
    (nI sd : Int) (item : Str) (j : Nat) :
    payloadsOf item (runIteration s w d nI sd item j).1 =
      [mkPayload s d sd nI] := by
  cases hreq : w.request item j with
  | fail =>
      rw [runIteration_fail hreq]
      simp [payloadsOf]
  | ok imgs =>
      rw [runIteration_ok hreq]
      have hsave := payloadsOf_saveImages item item j imgs
      simp only [payloadsOf, List.filterMap_cons] at hsave ⊢
      simp [hsave]

theorem runItem_ok_eq {s : Settings} {w : World} {item : Str} {d : Desc}
    (hd : w.descriptor item = DescState.ok d) :
    runItem s w item =
      seqRun
        (runIteration s w d (d.numImages.getD 1) (d.seed.getD s.seed) item)
        (iterRange (d.numIterations.getD 1)) := by
  unfold runItem
  rw [hd]

theorem iterDirsOf_runItem_self {s : Settings} {w : World} {item : Str}
    {d : Desc} (hd : w.descriptor item = DescState.ok d)
    (hz : (runItem s w item).2 = none) :
    iterDirsOf item (runItem s w item).1 =
      iterRange (d.numIterations.getD 1) := by
  rw [runItem_ok_eq hd] at hz ⊢
  have hall := (seqRun_none_iff _ _).mp hz
  rw [seqRun_fst_of_none _ _ hall]
  unfold iterDirsOf
  rw [filterMap_flatMap]
  have : ∀ j ∈ iterRange (d.numIterations.getD 1),
      (List.filterMap (fun e =>
        match e with
        | Event.iterDir a j => if a = item then some j else none
        | _ => none)
        (runIteration s w d (d.numImages.getD 1) (d.seed.getD s.seed)
          item j).1) = [j] := by
    intro j _
    exact iterDirsOf_runIteration_self s w d _ _ item j
  rw [List.flatMap_congr this]
  induction iterRange (d.numIterations.getD 1) with
  | nil => rfl
  | cons a l ih => simp [ih]

theorem payloadsOf_runItem_self {s : Settings} {w : World} {item : Str}
    {d : Desc} (hd : w.descriptor item = DescState.ok d)
    (hz : (runItem s w item).2 = none) :
    payloadsOf item (runItem s w item).1 =
      List.replicate (d.numIterations.getD 1).toNat
        (mkPayload s d (d.seed.getD s.seed) (d.numImages.getD 1)) := by
  rw [runItem_ok_eq hd] at hz ⊢
  have hall := (seqRun_none_iff _ _).mp hz
  rw [seqRun_fst_of_none _ _ hall]
  unfold payloadsOf
  rw [filterMap_flatMap]
  have hrw : ∀ j ∈ iterRange (d.numIterations.getD 1),
      (List.filterMap (fun e =>
        match e with
        | Event.request a _ p => if a = item then some p else none
        | _ => none)
        (runIteration s w d (d.numImages.getD 1) (d.seed.getD s.seed)
          item j).1) =
      [mkPayload s d (d.seed.getD s.seed) (d.numImages.getD 1)] := by
    intro j _
    exact payloadsOf_runIteration_self s w d _ _ item j
  rw [List.flatMap_congr hrw]
  have hlen : (iterRange (d.numIterations.getD 1)).length =
      (d.numIterations.getD 1).toNat := by
    simp [iterRange]
  rw [← hlen]
  induction iterRange (d.numIterations.getD 1) with
  | nil => rfl
  | cons a l ih => simp [ih, List.replicate_succ]

theorem iterDirsOf_generate {s : Settings} {w : World} {item : Str}
    {d : Desc} (hnd : w.items.Nodup) (hmem : item ∈ w.items)
    (hd : w.descriptor item = DescState.ok d)
    (hz : (generate_images s w).2 = none) :
    iterDirsOf item (generate_images s w).1 =
      iterRange (d.numIterations.getD 1) := by
  have hz' : (runItem s w item).2 = none :=
    ((seqRun_none_iff _ _).mp hz) item hmem
  have hsingle := filterMap_seqRun_single
    (fun e =>
      match e with
      | Event.iterDir a j => if a = item then some j else none
      | _ => none)
    (runItem s w) w.items item hnd hmem hz
    (fun x hx hne =>
      iterDirsOf_nil_of_ne hne (runItem s w x).1
        (fun e he => evItemOf_mem_runItem he))
  unfold generate_images iterDirsOf
  rw [hsingle]
  exact iterDirsOf_runItem_self hd hz'

theorem payloadsOf_generate {s : Settings} {w : World} {item : Str}
    {d : Desc} (hnd : w.items.Nodup) (hmem : item ∈ w.items)
    (hd : w.descriptor item = DescState.ok d)
    (hz : (generate_images s w).2 = none) :
    payloadsOf item (generate_images s w).1 =
      List.replicate (d.numIterations.getD 1).toNat
        (mkPayload s d (d.seed.getD s.seed) (d.numImages.getD 1)) := by
  have hz' : (runItem s w item).2 = none :=
    ((seqRun_none_iff _ _).mp hz) item hmem
  have hsingle := filterMap_seqRun_single
    (fun e =>
      match e with
      | Event.request a _ p => if a = item then some p else none
      | _ => none)
    (runItem s w) w.items item hnd hmem hz
    (fun x hx hne =>
      payloadsOf_nil_of_ne hne (runItem s w x).1
        (fun e he => evItemOf_mem_runItem he))
  unfold generate_images payloadsOf
  rw [hsingle]
  exact payloadsOf_runItem_self hd hz'

theorem saveImages_none_iff (item : Str) (iter : Nat)
    (imgs : List (Option Bytes)) :
    (saveImages item iter imgs).2 = none ↔ ∀ o ∈ imgs, o ≠ none := by
  unfold saveImages
  rw [seqRun_none_iff]
  constructor
  · intro h o ho hnone
    subst hnone
    rcases List.mem_iff_getElem?.mp ho with ⟨k, hk⟩
    have hp : ((k, (none : Option Bytes)) : Nat × Option Bytes) ∈
        imgs.enum := List.mk_mem_enum_iff_getElem?.mpr hk
    have := h _ hp
    simp at this
  · intro h p hp
    have hpm : p.2 ∈ imgs :=
      List.getElem?_mem (List.mem_enum_iff_getElem?.mp hp)
    cases hp2 : p.2 with
    | some b => simp [hp2]
    | none =>
        rw [hp2] at hpm
        exact absurd rfl (h none hpm)

theorem generate_none_of {s : Settings} {w : World}
    (hd : ∀ it ∈ w.items, ∃ dd, w.descriptor it = DescState.ok dd)
    (hok : ∀ it i imgs, w.request it i = ReqOutcome.ok imgs →
      ∀ o ∈ imgs, o ≠ none) :
    (generate_images s w).2 = none := by
  apply (seqRun_none_iff _ _).mpr
  intro x hx
  rcases hd x hx with ⟨dd, hdd⟩
  rw [runItem_ok_eq hdd]
  apply (seqRun_none_iff _ _).mpr
  intro j _
  cases hreq : w.request x j with
  | fail => rw [runIteration_fail hreq]
  | ok imgs =>
      rw [runIteration_ok hreq]
      exact (saveImages_none_iff x j imgs).mpr (hok x j imgs hreq)

theorem mem_generate_of_mem_runIteration {s : Settings} {w : World}
    {a : Str} {da : Desc} {i : Nat} {e : Event}
    (hz : (generate_images s w).2 = none)
    (ha : a ∈ w.items) (hda : w.descriptor a = DescState.ok da)
    (hi : i ∈ iterRange (da.numIterations.getD 1))
    (he : e ∈ (runIteration s w da (da.numImages.getD 1)
      (da.seed.getD s.seed) a i).1) :
    e ∈ (generate_images s w).1 := by
  have hz' : (runItem s w a).2 = none :=
    ((seqRun_none_iff _ _).mp hz) a ha
  have hmem1 : e ∈ (runItem s w a).1 := by
    rw [runItem_ok_eq hda] at hz' ⊢
    exact mem_seqRun_of_none hz' hi he
  exact mem_seqRun_of_none hz ha hmem1

theorem image_mem_saveImages {item : Str} {iter k : Nat} {b : Bytes}
    {imgs : List (Option Bytes)}
    (hks : imgs[k]? = some (some b)) (hnn : ∀ o ∈ imgs, o ≠ none) :
    Event.image item iter (k + 1) b ∈ (saveImages item iter imgs).1 := by
  have hz : (saveImages item iter imgs).2 = none :=
    (saveImages_none_iff item iter imgs).mpr hnn
  unfold saveImages at hz ⊢
  apply mem_seqRun_of_none hz (List.mk_mem_enum_iff_getElem?.mpr hks)
  simp

/-- C2: when the generation POST for some item's iteration fails, the
failure is logged (an `iterFailed` record), that iteration produces no
images, and processing continues with every remaining iteration and
item (each one's iteration directory is still created and each
successful response's images are still written); the run completes with
no escaping exception, and every image written anywhere in the run is
present in the final trace (the loop never deletes files).  Stated for
runs whose descriptors all load and whose 2xx responses decode, which
is what isolates the request-failure behaviour the claim is about. -/
theorem c2_request_failure_continues (s : Settings) (w : World)
    (hd : ∀ it ∈ w.items, ∃ dd, w.descriptor it = DescState.ok dd)
    (hok : ∀ it i imgs, w.request it i = ReqOutcome.ok imgs →
      ∀ o ∈ imgs, o ≠ none) :
    (generate_images s w).2 = none ∧
    (∀ a ∈ w.items, ∀ da, w.descriptor a = DescState.ok da →
      ∀ i ∈ iterRange (da.numIterations.getD 1),
        Event.iterDir a i ∈ (generate_images s w).1 ∧
        (w.request a i = ReqOutcome.fail →
          Event.iterFailed a i ∈ (generate_images s w).1 ∧
          ∀ k b, Event.image a i k b ∉ (generate_images s w).1) ∧
        (∀ imgs, w.request a i = ReqOutcome.ok imgs →
          ∀ k b, imgs[k]? = some (some b) →
            Event.image a i (k + 1) b ∈ (generate_images s w).1)) := by
  have hz := @generate_none_of s w hd hok
  refine ⟨hz, ?_⟩
  intro a ha da hda i hi
  refine ⟨?_, ?_, ?_⟩
  · apply mem_generate_of_mem_runIteration hz ha hda hi
    cases hreq : w.request a i with
    | fail => rw [runIteration_fail hreq]; simp
    | ok imgs => rw [runIteration_ok hreq]; simp
  · intro hfail
    constructor
    · apply mem_generate_of_mem_runIteration hz ha hda hi
      rw [runIteration_fail hfail]
      simp
    · intro k b
      exact image_not_mem_generate_of_fail hfail
  · intro imgs hreq k b hks
    apply mem_generate_of_mem_runIteration hz ha hda hi
    rw [runIteration_ok hreq]
    have hmem : Event.image a i (k + 1) b ∈ (saveImages a i imgs).1 :=
      image_mem_saveImages hks (hok a i imgs hreq)
    exact List.mem_cons_of_mem _ (List.mem_cons_of_mem _ hmem)

/-- Witness for C2 at a concrete run: two items, item A's request
fails, item B's succeeds; the run completes, A's failed iteration is
logged and writes nothing, and B's image is written. -/
theorem c2_witness :
    (generate_images settingsEx worldC2).2 = none ∧
    Event.iterFailed strA 1 ∈ (generate_images settingsEx worldC2).1 ∧
    Event.image strA 1 1 [7] ∉ (generate_images settingsEx worldC2).1 ∧
    Event.image strB 1 1 [7] ∈ (generate_images settingsEx worldC2).1 := by
  have hd : ∀ it ∈ worldC2.items, ∃ dd,
      worldC2.descriptor it = DescState.ok dd :=
    fun it _ => ⟨descEmpty, rfl⟩
  have hok : ∀ it i imgs, worldC2.request it i = ReqOutcome.ok imgs →
      ∀ o ∈ imgs, o ≠ none := by
    intro it i imgs h o ho
    by_cases hb : it = strB
    · simp only [worldC2, hb, if_pos rfl] at h
      cases h
      simp only [List.mem_singleton] at ho
      subst ho
      simp
    · simp only [worldC2, if_neg hb] at h
      cases h
  have hmain := c2_request_failure_continues settingsEx worldC2 hd hok
  have hA := hmain.2 strA (by simp [worldC2]) descEmpty rfl 1
    (by simp [descEmpty, iterRange])
  have hB := hmain.2 strB (by simp [worldC2]) descEmpty rfl 1
    (by simp [descEmpty, iterRange])
  have hreqA : worldC2.request strA 1 = ReqOutcome.fail := by
    simp [worldC2, strA, strB]
  have hreqB : worldC2.request strB 1 = ReqOutcome.ok [some [7]] := by
    simp [worldC2]
  refine ⟨hmain.1, (hA.2.1 hreqA).1, (hA.2.1 hreqA).2 1 [7], ?_⟩
  have := hB.2.2 [some [7]] hreqB 0 [7] (by simp)
  simpa using this

theorem runItemV1_ok_eq {s : Settings} {w : World} {item : Str} {d : Desc}
    {nI nIt : Int} (hd : w.descriptor item = DescState.ok d) :
    runItemV1 s w nI nIt item =
      seqRun (runIteration s w d nI (d.seed.getD s.seed) item)
        (iterRange nIt) := by
  unfold runItemV1
  rw [hd]

theorem iterDirsOf_runItemV1_self {s : Settings} {w : World} {item : Str}
    {d : Desc} {nI nIt : Int} (hd : w.descriptor item = DescState.ok d)
    (hz : (runItemV1 s w nI nIt item).2 = none) :
    iterDirsOf item (runItemV1 s w nI nIt item).1 = iterRange nIt := by
  rw [runItemV1_ok_eq hd] at hz ⊢
  have hall := (seqRun_none_iff _ _).mp hz
  rw [seqRun_fst_of_none _ _ hall]
  unfold iterDirsOf
  rw [filterMap_flatMap]
  have hrw : ∀ j ∈ iterRange nIt,
      (List.filterMap (fun e =>
        match e with
        | Event.iterDir a j => if a = item then some j else none
        | _ => none)
        (runIteration s w d nI (d.seed.getD s.seed) item j).1) = [j] := by
    intro j _
    exact iterDirsOf_runIteration_self s w d _ _ item j
  rw [List.flatMap_congr hrw]
  induction iterRange nIt with
  | nil => rfl
  | cons a l ih => simp [ih]

theorem payloadsOf_runItemV1_self {s : Settings} {w : World} {item : Str}
    {d : Desc} {nI nIt : Int} (hd : w.descriptor item = DescState.ok d)
    (hz : (runItemV1 s w nI nIt item).2 = none) :
    payloadsOf item (runItemV1 s w nI nIt item).1 =
      List.replicate nIt.toNat (mkPayload s d (d.seed.getD s.seed) nI) := by
  rw [runItemV1_ok_eq hd] at hz ⊢
  have hall := (seqRun_none_iff _ _).mp hz
  rw [seqRun_fst_of_none _ _ hall]
  unfold payloadsOf
  rw [filterMap_flatMap]
  have hrw : ∀ j ∈ iterRange nIt,
      (List.filterMap (fun e =>
        match e with
        | Event.request a _ p => if a = item then some p else none
        | _ => none)
        (runIteration s w d nI (d.seed.getD s.seed) item j).1) =
      [mkPayload s d (d.seed.getD s.seed) nI] := by
    intro j _
    exact payloadsOf_runIteration_self s w d _ _ item j
  rw [List.flatMap_congr hrw]
  have hlen : (iterRange nIt).length = nIt.toNat := by simp [iterRange]
  rw [← hlen]
  induction iterRange nIt with
  | nil => rfl
  | cons a l ih => simp [ih, List.replicate_succ]

/-- C1 (amended): in the current version (src/main.py) the generation
loop really does honour the persisted overrides: with the descriptor's
iteration field set to 3, exactly the directories Iteration_1..3 are
created for the item, each request's image count is the descriptor's
image field (fallback 1) and its seed is the descriptor's seed field
(fallback to the settings default).  In the v1.0 loop, however, only
the seed override is honoured: iteration and image counts come from the
run-level globals, not from the descriptor. -/
theorem c1_descriptor_overrides (s : Settings) (w : World) (item : Str)
    (d : Desc) (hnd : w.items.Nodup) (hmem : item ∈ w.items)
    (hd : w.descriptor item = DescState.ok d)
    (hz : (generate_images s w).2 = none)
    (h3 : d.numIterations = some 3) :
    iterDirsOf item (generate_images s w).1 = [1, 2, 3] ∧
    payloadsOf item (generate_images s w).1 =
      List.replicate 3
        (mkPayload s d (d.seed.getD s.seed) (d.numImages.getD 1)) ∧
    (mkPayload s d (d.seed.getD s.seed) (d.numImages.getD 1)).n_iter =
      d.numImages.getD 1 ∧
    (mkPayload s d (d.seed.getD s.seed) (d.numImages.getD 1)).seed =
      d.seed.getD s.seed ∧
    (∀ s' : Settings, ∀ w' : World, ∀ nI nIt : Int, ∀ x : Str, ∀ dv : Desc,
      w'.descriptor x = DescState.ok dv →
      (runItemV1 s' w' nI nIt x).2 = none →
      iterDirsOf x (runItemV1 s' w' nI nIt x).1 = iterRange nIt ∧
      payloadsOf x (runItemV1 s' w' nI nIt x).1 =
        List.replicate nIt.toNat
          (mkPayload s' dv (dv.seed.getD s'.seed) nI)) := by
  have h1 := iterDirsOf_generate hnd hmem hd hz
  have h2 := payloadsOf_generate hnd hmem hd hz
  rw [h3] at h1 h2
  refine ⟨?_, ?_, rfl, rfl, ?_⟩
  · rw [h1]; rfl
  · rw [h2]; rfl
  · intro s' w' nI nIt x dv hdv hz'
    exact ⟨iterDirsOf_runItemV1_self hdv hz',
      payloadsOf_runItemV1_self hdv hz'⟩

/-- C1 counterexample: in src/v1.0/main.py the claim fails.  The
persisted descriptor of item A says 3 iterations, but the v1.0 loop run
with run-level iteration count 1 creates exactly one iteration
directory for A, not three. -/
theorem c1_counterexample :
    worldC1.descriptor strA = DescState.ok descEdited ∧
    descEdited.numIterations = some 3 ∧
    iterDirsOf strA (generate_images_v1 settingsEx worldC1 1 1).1 = [1] ∧
    (generate_images_v1 settingsEx worldC1 1 1).2 = none := by
  refine ⟨rfl, rfl, ?_, rfl⟩
  rfl

/-- Witness for C1 at a concrete run of the current version: item A's
descriptor says 3 iterations, 2 images, seed 7, and exactly
Iteration_1..3 are created with each request carrying count 2, seed 7;
the v1.0 part instantiated at the same world with globals (1, 1). -/
theorem c1_witness :
    iterDirsOf strA (generate_images settingsEx worldC1).1 = [1, 2, 3] ∧
    payloadsOf strA (generate_images settingsEx worldC1).1 =
      List.replicate 3 (mkPayload settingsEx descEdited 7 2) ∧
    iterDirsOf strA (runItemV1 settingsEx worldC1 1 1 strA).1 =
      iterRange 1 := by
  have h := c1_descriptor_overrides settingsEx worldC1 strA descEdited
    (by decide) (by decide) rfl (by rfl) rfl
  have hv1 := h.2.2.2.2 settingsEx worldC1 1 1 strA descEdited rfl (by rfl)
  exact ⟨h.1, h.2.1, hv1.1⟩

theorem seqRun_append_none {α : Type} {f : α → List Event × Option Abort}
    {done : List α} (hdone : ∀ x ∈ done, (f x).2 = none) (xs : List α) :
    seqRun f (done ++ xs) =
      ((seqRun f done).1 ++ (seqRun f xs).1, (seqRun f xs).2) := by
  induction done with
  | nil => simp [seqRun]
  | cons x done' ih =>
      have hx : (f x).2 = none := hdone x (List.mem_cons_self x done')
      rw [List.cons_append, seqRun_cons_none hx,
        ih (fun y hy => hdone y (List.mem_cons_of_mem x hy)),
        seqRun_cons_none hx]
      simp [List.append_assoc]

/-- C6 (amended): in src/main.py a missing or unparsable descriptor is
not handled at all — the exception escapes `generate_images`, the run
aborts at that item wherever it occurs in the enumeration (after any
items already processed cleanly) and nothing later is processed.  In
src/v1.0/main.py a missing descriptor is skipped (processing continues
with exactly the other items) but an unparsable one still aborts the
run. -/
theorem c6_descriptor_failure (s : Settings) (w : World) (done : List Str)
    (item : Str) (rest : List Str) :
    (w.items = done ++ item :: rest →
      (∀ x ∈ done, (runItem s w x).2 = none) →
      w.descriptor item = DescState.missing →
      generate_images s w =
        ((seqRun (runItem s w) done).1,
         some (Abort.descriptorMissing item))) ∧
    (w.items = done ++ item :: rest →
      (∀ x ∈ done, (runItem s w x).2 = none) →
      w.descriptor item = DescState.malformed →
      generate_images s w =
        ((seqRun (runItem s w) done).1,
         some (Abort.descriptorMalformed item))) ∧
    (∀ nI nIt : Int, w.items = done ++ item :: rest →
      (∀ x ∈ done, (runItemV1 s w nI nIt x).2 = none) →
      w.descriptor item = DescState.missing →
      generate_images_v1 s w nI nIt =
        seqRun (runItemV1 s w nI nIt) (done ++ rest)) ∧
    (∀ nI nIt : Int, w.items = done ++ item :: rest →
      (∀ x ∈ done, (runItemV1 s w nI nIt x).2 = none) →
      w.descriptor item = DescState.malformed →
      generate_images_v1 s w nI nIt =
        ((seqRun (runItemV1 s w nI nIt) done).1,
         some (Abort.descriptorMalformed item))) := by
  refine ⟨?_, ?_, ?_, ?_⟩
  · intro hitems hdone hmiss
    unfold generate_images
    rw [hitems, seqRun_append_none hdone]
    have hri : runItem s w item = ([], some (Abort.descriptorMissing item)) := by
      unfold runItem
      rw [hmiss]
    rw [seqRun_cons_abort (by rw [hri]), hri]
    simp
  · intro hitems hdone hmal
    unfold generate_images
    rw [hitems, seqRun_append_none hdone]
    have hri : runItem s w item =
        ([], some (Abort.descriptorMalformed item)) := by
      unfold runItem
      rw [hmal]
    rw [seqRun_cons_abort (by rw [hri]), hri]
    simp
  · intro nI nIt hitems hdone hmiss
    unfold generate_images_v1
    rw [hitems, seqRun_append_none hdone, seqRun_append_none hdone]
    have hri : runItemV1 s w nI nIt item = ([], none) := by
      unfold runItemV1
      rw [hmiss]
    rw [seqRun_cons_none (by rw [hri]), hri]
    simp
  · intro nI nIt hitems hdone hmal
    unfold generate_images_v1
    rw [hitems, seqRun_append_none hdone]
    have hri : runItemV1 s w nI nIt item =
        ([], some (Abort.descriptorMalformed item)) := by
      unfold runItemV1
      rw [hmal]
    rw [seqRun_cons_abort (by rw [hri]), hri]
    simp

/-- C6 counterexample: in src/main.py a missing descriptor is not
"skipped with the batch continuing": with item A's descriptor absent
and item B enumerated after it, the run aborts at A with an escaping
exception and an empty trace — B is never processed. -/
theorem c6_counterexample :
    worldC6.descriptor strA = DescState.missing ∧
    strB ∈ worldC6.items ∧
    generate_images settingsEx worldC6 =
      ([], some (Abort.descriptorMissing strA)) := by
  refine ⟨rfl, ?_, rfl⟩
  decide

/-- Witness for C6 at concrete runs: the missing- and
malformed-descriptor aborts of the current version and the v1.0 skip
and abort at the same worlds. -/
theorem c6_witness :
    generate_images settingsEx worldC6 =
      ([], some (Abort.descriptorMissing strA)) ∧
    generate_images settingsEx worldC6m =
      ([], some (Abort.descriptorMalformed strA)) ∧
    generate_images_v1 settingsEx worldC6 1 1 =
      seqRun (runItemV1 settingsEx worldC6 1 1) [strB] ∧
    generate_images_v1 settingsEx worldC6m 1 1 =
      ([], some (Abort.descriptorMalformed strA)) := by
  have h := c6_descriptor_failure settingsEx worldC6 [] strA [strB]
  have hm := c6_descriptor_failure settingsEx worldC6m [] strA [strB]
  refine ⟨?_, ?_, ?_, ?_⟩
  · exact h.1 rfl (by intro x hx; exact absurd hx (List.not_mem_nil x)) rfl
  · exact hm.2.1 rfl (by intro x hx; exact absurd hx (List.not_mem_nil x))
      rfl
  · have := h.2.2.1 1 1 rfl
      (by intro x hx; exact absurd hx (List.not_mem_nil x)) rfl
    rw [this, List.nil_append]
  · exact hm.2.2.2 1 1 rfl
      (by intro x hx; exact absurd hx (List.not_mem_nil x)) rfl

theorem saveImages_malformed_head (item : Str) (iter : Nat)
    (imgs : List (Option Bytes)) :
    saveImages item iter (none :: imgs) =
      ([], some (Abort.decodeFailed item iter 1)) := by
  unfold saveImages
  rw [List.enum_cons]
  rw [seqRun_cons_abort (a := Abort.decodeFailed item iter 1) rfl]

/-- C7 (amended): a malformed base64 payload in a 2xx response is NOT
treated like a request failure.  Only `requests.exceptions.
RequestException` is caught by the loop; the `binascii.Error` raised by
`base64.b64decode` escapes, so the run aborts at that image — the
iteration directory and the request are the only trace entries for the
item, and no later iteration or item is processed. -/
theorem c7_decode_failure_aborts (s : Settings) (w : World) (item : Str)
    (rest : List Str) (d : Desc) (imgs : List (Option Bytes))
    (hitems : w.items = item :: rest)
    (hd : w.descriptor item = DescState.ok d)
    (hpos : 0 < (d.numIterations.getD 1).toNat)
    (hreq : w.request item 1 = ReqOutcome.ok (none :: imgs)) :
    generate_images s w =
      ([Event.iterDir item 1,
        Event.request item 1
          (mkPayload s d (d.seed.getD s.seed) (d.numImages.getD 1))],
       some (Abort.decodeFailed item 1 1)) := by
  have hri : runItem s w item =
      ([Event.iterDir item 1,
        Event.request item 1
          (mkPayload s d (d.seed.getD s.seed) (d.numImages.getD 1))],
       some (Abort.decodeFailed item 1 1)) := by
    rw [runItem_ok_eq hd]
    obtain ⟨m, hm⟩ : ∃ m, (d.numIterations.getD 1).toNat = m + 1 :=
      ⟨(d.numIterations.getD 1).toNat - 1, by omega⟩
    rw [iterRange, hm, List.range'_succ]
    have hit : runIteration s w d (d.numImages.getD 1) (d.seed.getD s.seed)
        item 1 =
        ([Event.iterDir item 1,
          Event.request item 1
            (mkPayload s d (d.seed.getD s.seed) (d.numImages.getD 1))],
         some (Abort.decodeFailed item 1 1)) := by
      rw [runIteration_ok hreq, saveImages_malformed_head]
    rw [seqRun_cons_abort (by rw [hit])]
    rw [hit]
  unfold generate_images
  rw [hitems]
  rw [seqRun_cons_abort (by rw [hri])]
  rw [hri]

/-- C7 counterexample: a 2xx response for item A whose single payload
is malformed does not let the loop continue — the run aborts with an
escaping decode error and item B (still to be enumerated) is never
processed. -/
theorem c7_counterexample :
    worldC7.request strA 1 = ReqOutcome.ok [none] ∧
    strB ∈ worldC7.items ∧
    (generate_images settingsEx worldC7).2 =
      some (Abort.decodeFailed strA 1 1) ∧
    Event.iterDir strB 1 ∉ (generate_images settingsEx worldC7).1 := by
  refine ⟨by decide, by decide, rfl, ?_⟩
  decide

/-- Witness for C7 at the same concrete world, through the amended
theorem. -/
theorem c7_witness :
    generate_images settingsEx worldC7 =
      ([Event.iterDir strA 1,
        Event.request strA 1 (mkPayload settingsEx descEmpty 11 1)],
       some (Abort.decodeFailed strA 1 1)) := by
  have h := c7_decode_failure_aborts settingsEx worldC7 strA [strB]
    descEmpty [] rfl rfl (by decide) (by decide)
  exact h

theorem listenerStop_not_mem_generate (s : Settings) (w : World) :
    Event.listenerStop ∉ (generate_images s w).1 := by
  intro h
  rcases mem_seqRun h with ⟨x, _, hex⟩
  have := evItemOf_mem_runItem hex
  simp [evItemOf] at this

/-- C9 (amended): the keyboard listener is started before any item
processing begins (the start is the very first action of the phase),
and it is stopped — as the very last action — only when both generation
passes finish without an escaping exception.  When an exception escapes
the generation loop, `stop_keyboard_listener()` is never reached (there
is no try/finally in `main`), so the input-capture resource is not
released on failure. -/
theorem c9_listener_lifecycle (s : Settings) (wc ws : World) :
    (imagesPhase s wc ws).1.head? = some Event.listenerStart ∧
    ((imagesPhase s wc ws).2 = none →
      (imagesPhase s wc ws).1.getLast? = some Event.listenerStop) ∧
    (∀ a : Abort, (imagesPhase s wc ws).2 = some a →
      Event.listenerStop ∉ (imagesPhase s wc ws).1) := by
  unfold imagesPhase
  cases hwc : generate_images s wc with
  | mk evs1 r1 =>
      cases r1 with
      | some a1 =>
          refine ⟨rfl, ?_, ?_⟩
          · intro h
            simp at h
          · intro a _ hmem
            simp only [List.mem_cons] at hmem
            rcases hmem with h | h
            · exact Event.noConfusion h
            · have : Event.listenerStop ∈ (generate_images s wc).1 := by
                rw [hwc]
                exact h
              exact listenerStop_not_mem_generate s wc this
      | none =>
          cases hws : generate_images s ws with
          | mk evs2 r2 =>
              cases r2 with
              | some a2 =>
                  refine ⟨rfl, ?_, ?_⟩
                  · intro h
                    simp at h
                  · intro a _ hmem
                    simp only [List.cons_append, List.mem_cons,
                      List.mem_append] at hmem
                    rcases hmem with h | h | h
                    · exact Event.noConfusion h
                    · have : Event.listenerStop ∈ (generate_images s wc).1 := by
                        rw [hwc]
                        exact h
                      exact listenerStop_not_mem_generate s wc this
                    · have : Event.listenerStop ∈ (generate_images s ws).1 := by
                        rw [hws]
                        exact h
                      exact listenerStop_not_mem_generate s ws this
              | none =>
                  refine ⟨rfl, ?_, ?_⟩
                  · intro _
                    show (Event.listenerStart :: evs1 ++ evs2 ++
                      [Event.listenerStop]).getLast? =
                      some Event.listenerStop
                    have hshape :
                        Event.listenerStart :: evs1 ++ evs2 ++
                          [Event.listenerStop] =
                        (Event.listenerStart :: (evs1 ++ evs2)) ++
                          [Event.listenerStop] := by
                      simp
                    rw [hshape, List.getLast?_concat]
                  · intro a h
                    exact Option.noConfusion h

/-- C9 counterexample: in a run where the character pass aborts (item
A's descriptor is missing), the listener is started but never stopped —
the claim's "stopped regardless of success or failure" fails on the
code. -/
theorem c9_counterexample :
    (imagesPhase settingsEx worldC6 worldEmpty).2 =
      some (Abort.descriptorMissing strA) ∧
    Event.listenerStart ∈ (imagesPhase settingsEx worldC6 worldEmpty).1 ∧
    Event.listenerStop ∉ (imagesPhase settingsEx worldC6 worldEmpty).1 := by
  refine ⟨rfl, by decide, ?_⟩
  decide

/-- Witness for C9: the failing run keeps the listener alive, a clean
run stops it last; the start is always first. -/
theorem c9_witness :
    (imagesPhase settingsEx worldC6 worldEmpty).1.head? =
      some Event.listenerStart ∧
    Event.listenerStop ∉ (imagesPhase settingsEx worldC6 worldEmpty).1 ∧
    (imagesPhase settingsEx worldEmpty worldEmpty).1.getLast? =
      some Event.listenerStop := by
  have h1 := c9_listener_lifecycle settingsEx worldC6 worldEmpty
  have h2 := c9_listener_lifecycle settingsEx worldEmpty worldEmpty
  exact ⟨h1.1, h1.2.2 (Abort.descriptorMissing strA) rfl, h2.2.1 rfl⟩

/-- C8: while the pause flag is true the wait-check keeps polling at
0.5s steps and does not return — the loop reaches its next request only
after a poll at which the flag is false; when it returns after `k`
sleeps, the flag was true at every earlier poll instant and false at
the final one; and toggling the flag twice (pause then resume) inside
one polling gap — so that no poll instant falls between the two key
presses — leaves the wait-check's behaviour, and hence the loop's
observable behaviour, unchanged. -/
theorem c8_pause_wait (flag : Nat → Bool) (t0 fuel : Nat) :
    (∀ k, busyWait flag t0 fuel = some k →
      (∀ j, j < k → flag (t0 + 500 * j) = true) ∧
      flag (t0 + 500 * k) = false) ∧
    ((∀ t, flag t = true) → busyWait flag t0 fuel = none) ∧
    (∀ a b : Nat,
      (∀ k, ¬(a ≤ t0 + 500 * k ∧ t0 + 500 * k < b)) →
      busyWait (toggleTwice flag a b) t0 fuel = busyWait flag t0 fuel) := by
  refine ⟨?_, ?_, ?_⟩
  · induction fuel generalizing t0 with
    | zero => intro k h; exact Option.noConfusion h
    | succ f ih =>
        intro k h
        unfold busyWait at h
        by_cases hf : flag t0 = true
        · rw [if_pos hf] at h
          cases hbw : busyWait flag (t0 + 500) f with
          | none => rw [hbw] at h; exact Option.noConfusion h
          | some k' =>
              rw [hbw] at h
              rw [Option.map_some'] at h
              have hk : k = k' + 1 := (Option.some_inj.mp h).symm
              subst hk
              have hih := ih (t0 + 500) k' hbw
              constructor
              · intro j hj
                cases j with
                | zero => simpa using hf
                | succ j' =>
                    have := hih.1 j' (by omega)
                    have harith : t0 + 500 + 500 * j' =
                        t0 + 500 * (j' + 1) := by ring
                    rw [harith] at this
                    exact this
              · have := hih.2
                have harith : t0 + 500 + 500 * k' =
                    t0 + 500 * (k' + 1) := by ring
                rw [harith] at this
                exact this
        · rw [if_neg hf] at h
          have hk : k = 0 := (Option.some_inj.mp h).symm
          subst hk
          refine ⟨fun j hj => absurd hj (by omega), ?_⟩
          simpa using Bool.of_not_eq_true hf
  · intro hall
    induction fuel generalizing t0 with
    | zero => rfl
    | succ f ih =>
        unfold busyWait
        rw [if_pos (hall t0), ih (t0 + 500)]
        rfl
  · intro a b hgap
    induction fuel generalizing t0 with
    | zero => rfl
    | succ f ih =>
        have hsame : toggleTwice flag a b t0 = flag t0 := by
          unfold toggleTwice
          rw [if_neg]
          have := hgap 0
          simpa using this
        unfold busyWait
        rw [hsame]
        by_cases hf : flag t0 = true
        · rw [if_pos hf, if_pos hf]
          rw [ih (t0 + 500) (fun k => by
            have := hgap (k + 1)
            have harith : t0 + 500 * (k + 1) = t0 + 500 + 500 * k := by ring
            rw [harith] at this
            exact this)]
        · rw [if_neg hf, if_neg hf]

/-- Witness for C8 at a concrete flag history: paused during the first
poll, resumed before the second, so the wait-check returns after one
sleep; a double toggle strictly inside the first polling gap is
invisible. -/
theorem c8_witness :
    ((∀ j, j < 1 → (fun t => decide (t < 500)) (0 + 500 * j) = true) ∧
      (fun t => decide (t < 500)) (0 + 500 * 1) = false) ∧
    busyWait (toggleTwice (fun t => decide (t < 500)) 100 400) 0 5 =
      busyWait (fun t => decide (t < 500)) 0 5 := by
  have h := c8_pause_wait (fun t => decide (t < 500)) 0 5
  refine ⟨h.1 1 (by decide), h.2.2 100 400 ?_⟩
  intro k
  rcases k with _ | k
  · simp
  · intro hc
    omega

/- ## Helper lemmas about the parser and the record operations -/

theorem splitOnce_eq_none_iff (c : Char) (s : Str) :
    splitOnce c s = none ↔ c ∉ s := by
  induction s with
  | nil => simp [splitOnce]
  | cons x t ih =>
      unfold splitOnce
      by_cases hx : x = c
      · subst hx; simp
      · rw [if_neg hx]
        cases h : splitOnce c t with
        | none =>
            have hct : c ∉ t := ih.mp h
            simp only [Option.map_none']
            constructor
            · intro _ hmem
              rcases List.mem_cons.mp hmem with hcx | hmemt
              · exact hx hcx.symm
              · exact hct hmemt
            · intro _; trivial
        | some p =>
            have hctm : c ∈ t := by
              by_contra hnot
              rw [ih.mpr hnot] at h
              exact Option.noConfusion h
            simp only [Option.map_some']
            constructor
            · intro hc; exact Option.noConfusion hc
            · intro hc; exact absurd (List.mem_cons_of_mem x hctm) hc

theorem splitOnce_append_colon (label value : Str)
    (h : (':' : Char) ∉ label) :
    splitOnce ':' (label ++ ':' :: value) = some (label, value) := by
  induction label with
  | nil => simp [splitOnce]
  | cons x t ih =>
      have hx : x ≠ ':' := fun hc => h (hc ▸ List.mem_cons_self x t)
      have ht : (':' : Char) ∉ t := fun hc => h (List.mem_cons_of_mem x hc)
      have hshape : splitOnce ':' ((x :: t) ++ ':' :: value) =
          (splitOnce ':' (t ++ ':' :: value)).map
            (fun p => (x :: p.1, p.2)) := by
        simp [splitOnce, hx]
      rw [hshape, ih ht, Option.map_some']

theorem foldl_parseStep_conts (conts : List Str)
    (h : ∀ cLine ∈ conts, (':' : Char) ∉ cLine) :
    ∀ (d : List (Str × Str)) (k : Str), k ≠ [] →
      conts.foldl parseStep (d, some k) =
        (conts.foldl
          (fun acc cLine => dictAppend k (' ' :: pyStrip cLine) acc) d,
         some k) := by
  induction conts with
  | nil => intro d k _; rfl
  | cons cLine rest ih =>
      intro d k hk
      have hcl : splitOnce ':' cLine = none :=
        (splitOnce_eq_none_iff ':' cLine).mpr
          (h cLine (List.mem_cons_self cLine rest))
      have hstep : parseStep (d, some k) cLine =
          (dictAppend k (' ' :: pyStrip cLine) d, some k) := by
        unfold parseStep
        rw [hcl]
        simp only [if_neg hk]
      simp only [List.foldl_cons, hstep]
      exact ih (fun l hl => h l (List.mem_cons_of_mem cLine hl)) _ k hk

theorem foldl_parseStep_conts_empty (conts : List Str)
    (h : ∀ cLine ∈ conts, (':' : Char) ∉ cLine) :
    ∀ d : List (Str × Str),
      conts.foldl parseStep (d, some []) = (d, some []) := by
  induction conts with
  | nil => intro d; rfl
  | cons cLine rest ih =>
      intro d
      have hcl : splitOnce ':' cLine = none :=
        (splitOnce_eq_none_iff ':' cLine).mpr
          (h cLine (List.mem_cons_self cLine rest))
      have hstep : parseStep (d, some []) cLine = (d, some []) := by
        unfold parseStep
        rw [hcl]
        simp
      simp only [List.foldl_cons, hstep]
      exact ih (fun l hl => h l (List.mem_cons_of_mem cLine hl)) d

theorem foldl_dictAppend_singleton (conts : List Str) :
    ∀ (k v : Str),
      conts.foldl
        (fun acc cLine => dictAppend k (' ' :: pyStrip cLine) acc)
        [(k, v)] =
      [(k, conts.foldl (fun acc cLine => acc ++ ' ' :: pyStrip cLine) v)] := by
  induction conts with
  | nil => intro k v; rfl
  | cons cLine rest ih =>
      intro k v
      simp only [List.foldl_cons]
      have hstep : dictAppend k (' ' :: pyStrip cLine) [(k, v)] =
          [(k, v ++ ' ' :: pyStrip cLine)] := by
        simp [dictAppend]
      rw [hstep, ih]

theorem foldl_parseStep_no_colon (lines : List Str)
    (h : ∀ l ∈ lines, (':' : Char) ∉ l) :
    lines.foldl parseStep ([], none) = ([], none) := by
  induction lines with
  | nil => rfl
  | cons l rest ih =>
      have hcl : splitOnce ':' l = none :=
        (splitOnce_eq_none_iff ':' l).mpr (h l (List.mem_cons_self l rest))
      have hstep : parseStep ([], none) l = ([], none) := by
        unfold parseStep
        rw [hcl]
      simp only [List.foldl_cons, hstep]
      exact ih (fun x hx => h x (List.mem_cons_of_mem l hx))

/-- C4 counterexample: for a colon line whose label strips to the
empty string, the program does not append the following colon-free
line — Python's continuation guard `if current_key:` is a truthiness
test, false for the empty string.  The block of " : v" followed by the
line "w" parses to the single field "" = "v"; the claimed space-joined
append would give "" = "v w". -/
theorem c4_counterexample :
    parse_prompt_block (String.toList " : v\nw") =
      [([], String.toList "v")] ∧
    ([([], String.toList "v")] : List (Str × Str)) ≠
      [([], String.toList "v w")] := by
  refine ⟨by decide, by decide⟩

/-- C4 (amended): the line scan builds the record as described — a
colon line starts a new field (label before the first colon, trimmed;
value after it, trimmed), a block with no colon lines yields an empty
record, and on the block "Description: A hero\nwho flies" the full
parser produces the single field Description = "A hero who flies" —
but a colon-free line is appended, space-joined, to the most recently
started field only when that field's trimmed label is nonempty
(Python's `if current_key:` truthiness test); after a colon line whose
label strips to empty, colon-free lines are silently dropped. -/
theorem c4_line_scan :
    parse_prompt_block (String.toList "Description: A hero\nwho flies") =
      [(String.toList "Description", String.toList "A hero who flies")] ∧
    (∀ lines : List Str, (∀ l ∈ lines, (':' : Char) ∉ l) →
      (parseLines lines).1 = []) ∧
    (∀ label value : Str, ∀ conts : List Str,
      (':' : Char) ∉ label → pyStrip label ≠ [] →
      (∀ cLine ∈ conts, (':' : Char) ∉ cLine) →
      (parseLines ((label ++ ':' :: value) :: conts)).1 =
        [(pyStrip label,
          conts.foldl (fun acc cLine => acc ++ ' ' :: pyStrip cLine)
            (pyStrip value))]) ∧
    (∀ label value : Str, ∀ conts : List Str,
      (':' : Char) ∉ label → pyStrip label = [] →
      (∀ cLine ∈ conts, (':' : Char) ∉ cLine) →
      (parseLines ((label ++ ':' :: value) :: conts)).1 =
        [([], pyStrip value)]) := by
  refine ⟨by decide, ?_, ?_, ?_⟩
  · intro lines h
    unfold parseLines
    rw [foldl_parseStep_no_colon lines h]
  · intro label value conts hlab hne hconts
    unfold parseLines
    have hstep : parseStep ([], none) (label ++ ':' :: value) =
        ([(pyStrip label, pyStrip value)], some (pyStrip label)) := by
      unfold parseStep
      rw [splitOnce_append_colon label value hlab]
      rfl
    simp only [List.foldl_cons, hstep]
    rw [foldl_parseStep_conts conts hconts _ _ hne,
      foldl_dictAppend_singleton]
  · intro label value conts hlab hempty hconts
    unfold parseLines
    have hstep : parseStep ([], none) (label ++ ':' :: value) =
        ([(pyStrip label, pyStrip value)], some (pyStrip label)) := by
      unfold parseStep
      rw [splitOnce_append_colon label value hlab]
      rfl
    simp only [List.foldl_cons, hstep, hempty]
    rw [foldl_parseStep_conts_empty conts hconts]

/-- Witness for C4: a colon-free block, a nonempty-label field with a
continuation, and an empty-label field whose continuation is dropped,
at concrete inputs. -/
theorem c4_witness :
    (parseLines [String.toList "no colon here"]).1 = [] ∧
    (parseLines ((String.toList "Name" ++ ':' :: String.toList " A") ::
        [String.toList " flies "])).1 =
      [(String.toList "Name", String.toList "A flies")] ∧
    (parseLines ((String.toList " " ++ ':' :: String.toList " v") ::
        [String.toList "w"])).1 = [([], String.toList "v")] := by
  have h := c4_line_scan
  refine ⟨h.2.1 [String.toList "no colon here"] (by decide), ?_, ?_⟩
  · have h2 := h.2.2.1 (String.toList "Name") (String.toList " A")
      [String.toList " flies "] (by decide) (by decide) (by decide)
    rw [h2]
    decide
  · have h3 := h.2.2.2 (String.toList " ") (String.toList " v")
      [String.toList "w"] (by decide) (by decide) (by decide)
    rw [h3]
    decide

theorem dictGet_dictSet_self {α : Type} (k : Str) (v : α)
    (d : List (Str × α)) : dictGet k (dictSet k v d) = some v := by
  induction d with
  | nil => simp [dictGet, dictSet]
  | cons kv rest ih =>
      unfold dictSet
      by_cases h : kv.1 = k
      · rw [if_pos h]
        simp [dictGet, h]
      · rw [if_neg h]
        simp [dictGet, h, ih]

theorem dictGet_dictSet_ne {α : Type} {k q : Str} (hne : q ≠ k) (v : α)
    (d : List (Str × α)) : dictGet q (dictSet k v d) = dictGet q d := by
  induction d with
  | nil =>
      simp only [dictSet, dictGet]
      rw [if_neg (fun h : k = q => hne h.symm)]
  | cons kv rest ih =>
      unfold dictSet
      by_cases h : kv.1 = k
      · rw [if_pos h]
        have hq : ¬(kv.1 = q) := fun hc => hne (h ▸ hc : k = q).symm
        simp [dictGet, hq]
      · rw [if_neg h]
        simp [dictGet, ih]

theorem dictGet_dictAppend_self (k : Str) (ext : Str)
    (d : List (Str × Str)) :
    dictGet k (dictAppend k ext d) = (dictGet k d).map (· ++ ext) := by
  induction d with
  | nil => simp [dictGet, dictAppend]
  | cons kv rest ih =>
      unfold dictAppend at ih ⊢
      by_cases h : kv.1 = k
      · simp [dictGet, h, ih]
      · simp [dictGet, h, ih]

theorem dictGet_foldl_appends (conts : List Str) (k : Str) :
    ∀ (d : List (Str × Str)) (v : Str), dictGet k d = some v →
      dictGet k
        (conts.foldl
          (fun acc cLine => dictAppend k (' ' :: pyStrip cLine) acc) d) =
      some (conts.foldl (fun acc cLine => acc ++ ' ' :: pyStrip cLine) v) := by
  induction conts with
  | nil => intro d v h; exact h
  | cons cLine rest ih =>
      intro d v h
      simp only [List.foldl_cons]
      apply ih
      rw [dictGet_dictAppend_self, h, Option.map_some']

theorem dictKeys_dictSet_mem {α : Type} {k : Str} (v : α)
    {d : List (Str × α)} (h : k ∈ dictKeys d) :
    dictKeys (dictSet k v d) = dictKeys d := by
  induction d with
  | nil => simp [dictKeys] at h
  | cons kv rest ih =>
      unfold dictSet
      by_cases hk : kv.1 = k
      · rw [if_pos hk]
        simp [dictKeys, hk]
      · rw [if_neg hk]
        have hmem : k ∈ dictKeys rest := by
          simp only [dictKeys, List.map_cons, List.mem_cons] at h
          rcases h with h | h
          · exact absurd h.symm hk
          · exact h
        have hr := ih hmem
        simp only [dictKeys, List.map_cons] at hr ⊢
        rw [hr]

theorem dictKeys_dictSet_not_mem {α : Type} {k : Str} (v : α)
    {d : List (Str × α)} (h : k ∉ dictKeys d) :
    dictKeys (dictSet k v d) = dictKeys d ++ [k] := by
  induction d with
  | nil => simp [dictKeys, dictSet]
  | cons kv rest ih =>
      unfold dictSet
      have hk : kv.1 ≠ k := by
        intro hc
        apply h
        simp only [dictKeys, List.map_cons, List.mem_cons]
        exact Or.inl hc.symm
      rw [if_neg hk]
      have hrest : k ∉ dictKeys rest := by
        intro hc
        apply h
        simp only [dictKeys, List.map_cons, List.mem_cons]
        exact Or.inr hc
      have hr := ih hrest
      simp only [dictKeys, List.map_cons] at hr ⊢
      rw [hr]
      simp

theorem dictKeys_dictSet_nodup {α : Type} (k : Str) (v : α)
    {d : List (Str × α)} (h : (dictKeys d).Nodup) :
    (dictKeys (dictSet k v d)).Nodup := by
  by_cases hk : k ∈ dictKeys d
  · rw [dictKeys_dictSet_mem v hk]
    exact h
  · rw [dictKeys_dictSet_not_mem v hk]
    simp [List.nodup_append, h, hk]

theorem mem_dictKeys_dictSet {α : Type} {q k : Str} {v : α}
    {d : List (Str × α)} (h : q ∈ dictKeys (dictSet k v d)) :
    q ∈ dictKeys d ∨ q = k := by
  by_cases hk : k ∈ dictKeys d
  · rw [dictKeys_dictSet_mem v hk] at h
    exact Or.inl h
  · rw [dictKeys_dictSet_not_mem v hk] at h
    rcases List.mem_append.mp h with h | h
    · exact Or.inl h
    · exact Or.inr (List.mem_singleton.mp h)

theorem dictKeys_dictAppend (k ext : Str) (d : List (Str × Str)) :
    dictKeys (dictAppend k ext d) = dictKeys d := by
  unfold dictKeys dictAppend
  rw [List.map_map]
  apply List.map_congr_left
  intro kv _
  by_cases h : kv.1 = k
  · simp [h]
  · simp [h]

theorem parse_fold_keys (lines : List Str) :
    ∀ st : List (Str × Str) × Option Str,
      (dictKeys st.1).Nodup →
      (dictKeys (lines.foldl parseStep st).1).Nodup ∧
      (∀ q ∈ dictKeys (lines.foldl parseStep st).1,
        q ∈ dictKeys st.1 ∨ q ∈ linesLabels lines) := by
  induction lines with
  | nil =>
      intro st h
      exact ⟨h, fun q hq => Or.inl hq⟩
  | cons l rest ih =>
      intro st h
      simp only [List.foldl_cons]
      cases hsp : splitOnce ':' l with
      | some kv =>
          have hstep : parseStep st l =
              (dictSet (pyStrip kv.1) (pyStrip kv.2) st.1,
               some (pyStrip kv.1)) := by
            unfold parseStep
            rw [hsp]
          rw [hstep]
          have hnd : (dictKeys
              (dictSet (pyStrip kv.1) (pyStrip kv.2) st.1)).Nodup :=
            dictKeys_dictSet_nodup _ _ h
          have hih := ih (dictSet (pyStrip kv.1) (pyStrip kv.2) st.1,
            some (pyStrip kv.1)) hnd
          have hlab : linesLabels (l :: rest) =
              pyStrip kv.1 :: linesLabels rest := by
            simp [linesLabels, hsp]
          refine ⟨hih.1, ?_⟩
          intro q hq
          rcases hih.2 q hq with hq1 | hq2
          · rcases mem_dictKeys_dictSet hq1 with hin | heq
            · exact Or.inl hin
            · right
              rw [hlab, heq]
              exact List.mem_cons_self _ _
          · right
            rw [hlab]
            exact List.mem_cons_of_mem _ hq2
      | none =>
          have hlab : linesLabels (l :: rest) = linesLabels rest := by
            simp [linesLabels, hsp]
          cases hck : st.2 with
          | some k =>
              by_cases hkem : k = []
              · have hstep : parseStep st l = st := by
                  unfold parseStep
                  rw [hsp, hck]
                  show (if k = [] then st
                    else (dictAppend k (' ' :: pyStrip l) st.1, some k)) = st
                  rw [if_pos hkem]
                rw [hstep]
                have hih := ih st h
                refine ⟨hih.1, ?_⟩
                intro q hq
                rcases hih.2 q hq with hq1 | hq2
                · exact Or.inl hq1
                · rw [hlab]
                  exact Or.inr hq2
              · have hstep : parseStep st l =
                    (dictAppend k (' ' :: pyStrip l) st.1, some k) := by
                  unfold parseStep
                  rw [hsp, hck]
                  show (if k = [] then st
                    else (dictAppend k (' ' :: pyStrip l) st.1, some k)) =
                    (dictAppend k (' ' :: pyStrip l) st.1, some k)
                  rw [if_neg hkem]
                rw [hstep]
                have hnd : (dictKeys
                    (dictAppend k (' ' :: pyStrip l) st.1)).Nodup := by
                  rw [dictKeys_dictAppend]
                  exact h
                have hih := ih (dictAppend k (' ' :: pyStrip l) st.1, some k)
                  hnd
                refine ⟨hih.1, ?_⟩
                intro q hq
                rcases hih.2 q hq with hq1 | hq2
                · rw [dictKeys_dictAppend] at hq1
                  exact Or.inl hq1
                · rw [hlab]
                  exact Or.inr hq2
          | none =>
              have hstep : parseStep st l = st := by
                unfold parseStep
                rw [hsp, hck]
              rw [hstep]
              have hih := ih st h
              refine ⟨hih.1, ?_⟩
              intro q hq
              rcases hih.2 q hq with hq1 | hq2
              · exact Or.inl hq1
              · rw [hlab]
                exact Or.inr hq2

/-- C10 counterexample: when the duplicated trimmed label is the empty
string, the last colon line still wins but its continuation lines are
NOT appended — Python's `if current_key:` truthiness test drops them.
The block " : a" / " : b" / "w" parses to "" = "b", where the claim's
"value of the last line together with its own continuations" would be
"b w". -/
theorem c10_counterexample :
    parse_prompt_block (String.toList " : a\n : b\nw") =
      [([], String.toList "b")] ∧
    ([([], String.toList "b")] : List (Str × Str)) ≠
      [([], String.toList "b w")] := by
  refine ⟨by decide, by decide⟩

/-- C10 (amended): duplicate labels — the later colon line wins.  For
any prefix of earlier lines (which may set the same label), a colon
line followed by its continuation lines leaves the label bound to that
last line's value extended by its own continuations when the trimmed
label is nonempty; when the duplicated label trims to the empty
string, the last line's value wins but its continuation lines are
dropped (`if current_key:` is false for "").  In either case a parsed
record never has more entries than the block has distinct trimmed
labels. -/
theorem c10_duplicate_labels :
    (∀ pre : List Str, ∀ label value : Str, ∀ conts : List Str,
      (':' : Char) ∉ label → pyStrip label ≠ [] →
      (∀ cLine ∈ conts, (':' : Char) ∉ cLine) →
      dictGet (pyStrip label)
        (parseLines (pre ++ (label ++ ':' :: value) :: conts)).1 =
      some (conts.foldl (fun acc cLine => acc ++ ' ' :: pyStrip cLine)
        (pyStrip value))) ∧
    (∀ pre : List Str, ∀ label value : Str, ∀ conts : List Str,
      (':' : Char) ∉ label → pyStrip label = [] →
      (∀ cLine ∈ conts, (':' : Char) ∉ cLine) →
      dictGet ([] : Str)
        (parseLines (pre ++ (label ++ ':' :: value) :: conts)).1 =
      some (pyStrip value)) ∧
    (∀ block : Str,
      (parse_prompt_block block).length ≤
        (blockLabels block).dedup.length) := by
  refine ⟨?_, ?_, ?_⟩
  · intro pre label value conts hlab hne hconts
    unfold parseLines
    rw [List.foldl_append]
    set st := pre.foldl parseStep ([], none) with hst
    simp only [List.foldl_cons]
    have hstep : parseStep st (label ++ ':' :: value) =
        (dictSet (pyStrip label) (pyStrip value) st.1,
         some (pyStrip label)) := by
      unfold parseStep
      rw [splitOnce_append_colon label value hlab]
    rw [hstep, foldl_parseStep_conts conts hconts _ _ hne]
    exact dictGet_foldl_appends conts (pyStrip label) _ _
      (dictGet_dictSet_self _ _ _)
  · intro pre label value conts hlab hempty hconts
    unfold parseLines
    rw [List.foldl_append]
    set st := pre.foldl parseStep ([], none) with hst
    simp only [List.foldl_cons]
    have hstep : parseStep st (label ++ ':' :: value) =
        (dictSet (pyStrip label) (pyStrip value) st.1,
         some (pyStrip label)) := by
      unfold parseStep
      rw [splitOnce_append_colon label value hlab]
    rw [hstep, hempty, foldl_parseStep_conts_empty conts hconts]
    exact dictGet_dictSet_self _ _ _
  · intro block
    have hinv := parse_fold_keys (pySplit '\n' [] (pyStrip block))
      ([], none) (by simp [dictKeys])
    have hlen : (parse_prompt_block block).length =
        (dictKeys (parse_prompt_block block)).length := by
      simp [dictKeys]
    rw [hlen]
    have hnd : (dictKeys (parse_prompt_block block)).Nodup := hinv.1
    have hsub : ∀ q ∈ dictKeys (parse_prompt_block block),
        q ∈ blockLabels block := by
      intro q hq
      rcases hinv.2 q hq with h1 | h2
      · simp [dictKeys] at h1
      · exact h2
    have hfin : (dictKeys (parse_prompt_block block)).toFinset ⊆
        (blockLabels block).toFinset := by
      intro q hq
      exact List.mem_toFinset.mpr (hsub q (List.mem_toFinset.mp hq))
    have hcard := Finset.card_le_card hfin
    rw [List.toFinset_card_of_nodup hnd] at hcard
    rw [List.card_toFinset] at hcard
    exact hcard

/-- Witness for C10: a block whose two colon lines share the nonempty
label X parses to X = "2 c" (the later value with its continuation),
an empty duplicated label keeps only the later value "b", and on the
first shape the size bound is met. -/
theorem c10_witness :
    dictGet (String.toList "X")
      (parseLines ([String.toList "X: 1"] ++
        (String.toList "X" ++ ':' :: String.toList " 2") ::
        [String.toList " c"])).1 = some (String.toList "2 c") ∧
    dictGet ([] : Str)
      (parseLines ([String.toList " : a"] ++
        (String.toList " " ++ ':' :: String.toList " b") ::
        [String.toList "w"])).1 = some (String.toList "b") ∧
    (parse_prompt_block (String.toList "X: 1\nX: 2")).length ≤
      (blockLabels (String.toList "X: 1\nX: 2")).dedup.length := by
  have h := c10_duplicate_labels
  refine ⟨?_, ?_, h.2.2 (String.toList "X: 1\nX: 2")⟩
  · exact h.1 [String.toList "X: 1"] (String.toList "X")
      (String.toList " 2") [String.toList " c"] (by decide) (by decide)
      (by decide)
  · exact h.2.1 [String.toList " : a"] (String.toList " ")
      (String.toList " b") [String.toList "w"] (by decide) (by decide)
      (by decide)

theorem dictGet_map_value {α β : Type} (f : α → β) (k : Str)
    (d : List (Str × α)) :
    dictGet k (d.map (fun kv => (kv.1, f kv.2))) =
      (dictGet k d).map f := by
  induction d with
  | nil => rfl
  | cons kv rest ih =>
      unfold dictGet
      by_cases h : kv.1 = k
      · simp [h]
      · simp [h, ih]

theorem dictGet_filter_name_ne {α : Type} {k : Str} (hk : k ≠ nameKey)
    (d : List (Str × α)) :
    dictGet k (d.filter (fun kv => kv.1 ≠ nameKey)) = dictGet k d := by
  induction d with
  | nil => rfl
  | cons kv rest ih =>
      rw [List.filter_cons]
      by_cases hname : kv.1 = nameKey
      · rw [if_neg (by simp [hname])]
        rw [ih]
        have hne : kv.1 ≠ k := fun hc => hk (hc ▸ hname : k = nameKey)
        show dictGet k rest = if kv.1 = k then some kv.2 else dictGet k rest
        rw [if_neg hne]
      · rw [if_pos (by simp [hname])]
        show (if kv.1 = k then some kv.2
            else dictGet k (rest.filter (fun kv => kv.1 ≠ nameKey))) =
          (if kv.1 = k then some kv.2 else dictGet k rest)
        by_cases h : kv.1 = k
        · rw [if_pos h, if_pos h]
        · rw [if_neg h, if_neg h, ih]

theorem dictGet_none_of_all_ne {α : Type} {k : Str} {d : List (Str × α)}
    (h : ∀ kv ∈ d, kv.1 ≠ k) : dictGet k d = none := by
  induction d with
  | nil => rfl
  | cons kv rest ih =>
      unfold dictGet
      rw [if_neg (h kv (List.mem_cons_self kv rest))]
      exact ih (fun x hx => h x (List.mem_cons_of_mem kv hx))

theorem dictGet_woName_ne {k : Str} (hk : k ≠ nameKey)
    (d : List (Str × Str)) :
    dictGet k ((d.filter (fun kv => kv.1 ≠ nameKey)).map
      (fun kv => (kv.1, JVal.s kv.2))) = (dictGet k d).map JVal.s := by
  rw [dictGet_map_value, dictGet_filter_name_ne hk]

theorem dictGet_woName_name (d : List (Str × Str)) :
    dictGet nameKey ((d.filter (fun kv => kv.1 ≠ nameKey)).map
      (fun kv => (kv.1, JVal.s kv.2))) = none := by
  apply dictGet_none_of_all_ne
  intro kv hkv
  rcases List.mem_map.mp hkv with ⟨kv0, hkv0, hmap⟩
  have := List.of_mem_filter hkv0
  simp only [decide_not, Bool.not_eq_eq_eq_not, Bool.not_true,
    decide_eq_false_iff_not] at this
  rw [← hmap]
  exact this

/-- C5 counterexample: the claim also cites src/v1.0/main.py, whose
`generate_json_files` writes the run-level global image and iteration
counts into the descriptor, not the constant 1: with user-entered
globals 2 and 3 the written control fields are 2 and 3. -/
theorem c5_counterexample :
    dictGet imagesKey (descriptorJsonV1 [] 42 2 3) = some (JVal.i 2) ∧
    dictGet iterationsKey (descriptorJsonV1 [] 42 2 3) =
      some (JVal.i 3) ∧
    (some (JVal.i 2) ≠ some (JVal.i 1) ∧
      some (JVal.i 3) ≠ some (JVal.i 1)) := by
  refine ⟨by decide, by decide, by decide, by decide⟩

/-- C5 (amended): in src/main.py materializing a record writes a
descriptor without the Name field, with exactly the three control
fields Number of Images = 1, Number of Iterations = 1 and Seed = the
provided default, every other record field carried over unchanged, and
the item directory name is the Name value (fallback "Unnamed") with
spaces replaced by underscores — "Jean Grey" becomes "Jean_Grey".  In
src/v1.0/main.py the same holds except that the image and iteration
control fields carry the run-level global values entered for the run,
not the constant 1. -/
theorem c5_materialization (data : List (Str × Str)) (seed : Int) :
    dictGet nameKey (descriptorJson data seed) = none ∧
    dictGet imagesKey (descriptorJson data seed) = some (JVal.i 1) ∧
    dictGet iterationsKey (descriptorJson data seed) = some (JVal.i 1) ∧
    dictGet seedKey (descriptorJson data seed) = some (JVal.i seed) ∧
    (∀ k : Str, k ≠ nameKey → k ≠ imagesKey → k ≠ iterationsKey →
      k ≠ seedKey →
      dictGet k (descriptorJson data seed) =
        (dictGet k data).map JVal.s) ∧
    itemDirName [(nameKey, String.toList "Jean Grey")] =
      String.toList "Jean_Grey" ∧
    (dictGet nameKey data = none →
      itemDirName data = String.toList "Unnamed") ∧
    (∀ dataV : List (Str × Str), ∀ seedV nI nIt : Int,
      dictGet nameKey (descriptorJsonV1 dataV seedV nI nIt) = none ∧
      dictGet imagesKey (descriptorJsonV1 dataV seedV nI nIt) =
        some (JVal.i nI) ∧
      dictGet iterationsKey (descriptorJsonV1 dataV seedV nI nIt) =
        some (JVal.i nIt) ∧
      dictGet seedKey (descriptorJsonV1 dataV seedV nI nIt) =
        some (JVal.i seedV) ∧
      (∀ k : Str, k ≠ nameKey → k ≠ imagesKey → k ≠ iterationsKey →
        k ≠ seedKey →
        dictGet k (descriptorJsonV1 dataV seedV nI nIt) =
          (dictGet k dataV).map JVal.s)) := by
  refine ⟨?_, ?_, ?_, ?_, ?_, by decide, ?_, ?_⟩
  · unfold descriptorJson
    rw [dictGet_dictSet_ne (by decide), dictGet_dictSet_ne (by decide),
      dictGet_dictSet_ne (by decide)]
    exact dictGet_woName_name data
  · unfold descriptorJson
    rw [dictGet_dictSet_ne (by decide), dictGet_dictSet_ne (by decide),
      dictGet_dictSet_self]
  · unfold descriptorJson
    rw [dictGet_dictSet_ne (by decide), dictGet_dictSet_self]
  · unfold descriptorJson
    rw [dictGet_dictSet_self]
  · intro k hk1 hk2 hk3 hk4
    unfold descriptorJson
    rw [dictGet_dictSet_ne hk4, dictGet_dictSet_ne hk3,
      dictGet_dictSet_ne hk2]
    exact dictGet_woName_ne hk1 data
  · intro hno
    unfold itemDirName
    rw [hno]
    decide
  · intro dataV seedV nI nIt
    refine ⟨?_, ?_, ?_, ?_, ?_⟩
    · unfold descriptorJsonV1
      rw [dictGet_dictSet_ne (by decide), dictGet_dictSet_ne (by decide),
        dictGet_dictSet_ne (by decide)]
      exact dictGet_woName_name dataV
    · unfold descriptorJsonV1
      rw [dictGet_dictSet_ne (by decide), dictGet_dictSet_ne (by decide),
        dictGet_dictSet_self]
    · unfold descriptorJsonV1
      rw [dictGet_dictSet_ne (by decide), dictGet_dictSet_self]
    · unfold descriptorJsonV1
      rw [dictGet_dictSet_self]
    · intro k hk1 hk2 hk3 hk4
      unfold descriptorJsonV1
      rw [dictGet_dictSet_ne hk4, dictGet_dictSet_ne hk3,
        dictGet_dictSet_ne hk2]
      exact dictGet_woName_ne hk1 dataV

/-- Witness for C5 at a concrete record: the Jean Grey record with one
extra field keeps that field, drops Name, and has the three control
fields; the v1.0 variant at globals 2/3 writes those globals while
behaving identically on the other fields. -/
theorem c5_witness :
    dictGet nameKey
      (descriptorJson [(nameKey, String.toList "Jean Grey"),
        (String.toList "Role", String.toList "hero")] 42) = none ∧
    dictGet (String.toList "Role")
      (descriptorJson [(nameKey, String.toList "Jean Grey"),
        (String.toList "Role", String.toList "hero")] 42) =
      some (JVal.s (String.toList "hero")) ∧
    dictGet seedKey
      (descriptorJson [(nameKey, String.toList "Jean Grey"),
        (String.toList "Role", String.toList "hero")] 42) =
      some (JVal.i 42) ∧
    dictGet imagesKey
      (descriptorJsonV1 [(nameKey, String.toList "Jean Grey"),
        (String.toList "Role", String.toList "hero")] 42 2 3) =
      some (JVal.i 2) ∧
    dictGet (String.toList "Role")
      (descriptorJsonV1 [(nameKey, String.toList "Jean Grey"),
        (String.toList "Role", String.toList "hero")] 42 2 3) =
      some (JVal.s (String.toList "hero")) := by
  have h := c5_materialization
    [(nameKey, String.toList "Jean Grey"),
     (String.toList "Role", String.toList "hero")] 42
  have hv1 := h.2.2.2.2.2.2.2
    [(nameKey, String.toList "Jean Grey"),
     (String.toList "Role", String.toList "hero")] 42 2 3
  refine ⟨h.1, ?_, h.2.2.2.1, hv1.2.1, ?_⟩
  · have hrole := h.2.2.2.2.1 (String.toList "Role") (by decide)
      (by decide) (by decide) (by decide)
    rw [hrole]
    decide
  · have hroleV := hv1.2.2.2.2 (String.toList "Role") (by decide)
      (by decide) (by decide) (by decide)
    rw [hroleV]
    decide

/- ## Helper lemmas for the prompt-file split (claim C3) -/

theorem findSub_cons_ne_nil {c0 : Char} {crest s : Str} {i : Nat}
    (h : findSub (c0 :: crest) s = some i) : s ≠ [] := by
  intro hs
  subst hs
  simp [findSub, List.isPrefixOf] at h

theorem findSub_of_isPrefixOf {sep s : Str}
    (h : sep.isPrefixOf s = true) : findSub sep s = some 0 := by
  unfold findSub
  rw [if_pos h]

theorem findSub_cons_of_not {sep : Str} {x : Char} {t : Str}
    (h : ¬sep.isPrefixOf (x :: t) = true) :
    findSub sep (x :: t) = (findSub sep t).map (· + 1) := by
  show (if sep.isPrefixOf (x :: t) = true then some 0
    else (findSub sep t).map (· + 1)) = (findSub sep t).map (· + 1)
  rw [if_neg h]

theorem pySplitFuel_congr (c0 : Char) (crest : Str) :
    ∀ f1 f2 s, s.length < f1 → s.length < f2 →
      pySplitFuel c0 crest f1 s = pySplitFuel c0 crest f2 s := by
  intro f1
  induction f1 with
  | zero =>
      intro f2 s h1 _
      exact absurd h1 (by omega)
  | succ f ih =>
      intro f2 s h1 h2
      cases f2 with
      | zero => exact absurd h2 (by omega)
      | succ g =>
          show (match findSub (c0 :: crest) s with
            | none => [s]
            | some i => s.take i ::
                pySplitFuel c0 crest f (s.drop (i + crest.length + 1))) =
            (match findSub (c0 :: crest) s with
            | none => [s]
            | some i => s.take i ::
                pySplitFuel c0 crest g (s.drop (i + crest.length + 1)))
          cases hfs : findSub (c0 :: crest) s with
          | none => rfl
          | some i =>
              have hpos : 0 < s.length :=
                List.length_pos.mpr (findSub_cons_ne_nil hfs)
              have hlen : (s.drop (i + crest.length + 1)).length <
                  s.length := by
                simp only [List.length_drop]
                omega
              simp only [List.cons.injEq, true_and]
              exact ih g _ (by omega) (by omega)

theorem pySplit_of_none {c0 : Char} {crest s : Str}
    (h : findSub (c0 :: crest) s = none) : pySplit c0 crest s = [s] := by
  unfold pySplit
  show (match findSub (c0 :: crest) s with
    | none => [s]
    | some i => s.take i ::
        pySplitFuel c0 crest s.length (s.drop (i + crest.length + 1))) = [s]
  rw [h]

theorem isPrefixOf_ds_congr {l l' : Str} (h : l.take 3 = l'.take 3) :
    sepDashes.isPrefixOf l = sepDashes.isPrefixOf l' := by
  rw [Bool.eq_iff_iff, List.isPrefixOf_iff_prefix, List.isPrefixOf_iff_prefix,
    List.prefix_iff_eq_take, List.prefix_iff_eq_take]
  have h3 : sepDashes.length = 3 := rfl
  rw [h3, h]

theorem take_ds_append (r : Str) (m : Nat) (hm : m ≤ 2) :
    (sepDashes ++ r).take m = (['-', '-'] : Str).take m := by
  have hcases : m = 0 ∨ m = 1 ∨ m = 2 := by omega
  rcases hcases with h | h | h <;> subst h <;> simp [sepDashes]

theorem take_two_append_congr (a' u v : Str)
    (huv : ∀ m, m ≤ 2 → u.take m = v.take m) :
    (a' ++ u).take 2 = (a' ++ v).take 2 := by
  rw [List.take_append_eq_append_take]
  rw [List.take_append_eq_append_take]
  rw [huv (2 - a'.length) (by omega)]

theorem findSub_ds_append (r : Str) :
    ∀ a : Str, findSub sepDashes (a ++ ['-', '-']) = none →
      findSub sepDashes (a ++ sepDashes ++ r) = some a.length := by
  intro a
  induction a with
  | nil =>
      intro _
      show findSub sepDashes (sepDashes ++ r) = some 0
      exact findSub_of_isPrefixOf
        (List.isPrefixOf_iff_prefix.mpr (List.prefix_append _ _))
  | cons x a' ih =>
      intro h
      have hsplit : sepDashes.isPrefixOf (x :: (a' ++ ['-', '-'])) = false ∧
          findSub sepDashes (a' ++ ['-', '-']) = none := by
        by_cases hg : sepDashes.isPrefixOf (x :: (a' ++ ['-', '-'])) = true
        · rw [List.cons_append] at h
          rw [findSub_of_isPrefixOf hg] at h
          exact absurd h (by simp)
        · constructor
          · exact Bool.eq_false_iff.mpr hg
          · rw [List.cons_append, findSub_cons_of_not hg] at h
            exact Option.map_eq_none'.mp h
      have htake : (x :: (a' ++ sepDashes ++ r)).take 3 =
          (x :: (a' ++ ['-', '-'])).take 3 := by
        simp only [List.take_succ_cons, List.cons.injEq, true_and]
        rw [List.append_assoc]
        exact take_two_append_congr a' (sepDashes ++ r) ['-', '-']
          (fun m hm => take_ds_append r m hm)
      have hguard : sepDashes.isPrefixOf (x :: (a' ++ sepDashes ++ r)) =
          false := by
        rw [isPrefixOf_ds_congr htake]
        exact hsplit.1
      show findSub sepDashes (x :: (a' ++ sepDashes ++ r)) =
        some (a'.length + 1)
      have hnot : ¬sepDashes.isPrefixOf (x :: (a' ++ sepDashes ++ r)) =
          true := by
        rw [hguard]
        simp
      rw [findSub_cons_of_not hnot, ih hsplit.2]
      rfl

theorem pySplitFuel_succ (c0 : Char) (crest : Str) (f : Nat) (s : Str) :
    pySplitFuel c0 crest (f + 1) s =
      match findSub (c0 :: crest) s with
      | none => [s]
      | some i => s.take i ::
          pySplitFuel c0 crest f (s.drop (i + crest.length + 1)) := rfl

theorem pySplitFuel_succ_some {c0 : Char} {crest : Str} {f : Nat} {s : Str}
    {i : Nat} (h : findSub (c0 :: crest) s = some i) :
    pySplitFuel c0 crest (f + 1) s =
      s.take i :: pySplitFuel c0 crest f (s.drop (i + crest.length + 1)) := by
  rw [pySplitFuel_succ, h]

theorem pySplit_peel {a r : Str}
    (ha : findSub sepDashes (a ++ ['-', '-']) = none) :
    pySplit '-' ['-', '-'] (a ++ sepDashes ++ r) =
      a :: pySplit '-' ['-', '-'] r := by
  have hfind : findSub ('-' :: ['-', '-']) (a ++ sepDashes ++ r) =
      some a.length := findSub_ds_append r a ha
  have htake : (a ++ sepDashes ++ r).take a.length = a := by
    rw [List.append_assoc, List.take_left]
  have hdrop : (a ++ sepDashes ++ r).drop
      (a.length + (['-', '-'] : Str).length + 1) = r := by
    apply List.drop_left'
    simp [sepDashes]
  unfold pySplit
  rw [pySplitFuel_succ_some hfind, htake, hdrop]
  have hlenr : r.length < (a ++ sepDashes ++ r).length := by
    simp [sepDashes]
    omega
  rw [pySplitFuel_congr '-' ['-', '-'] (a ++ sepDashes ++ r).length
    (r.length + 1) r hlenr (by omega)]

theorem findSub_ds_extend {b : Str} (h : findSub sepDashes b = none) :
    findSub sepDashes (b ++ '\n' :: ['-', '-']) = none := by
  induction b with
  | nil => decide
  | cons x b' ih =>
      have hsplit : sepDashes.isPrefixOf (x :: b') = false ∧
          findSub sepDashes b' = none := by
        by_cases hg : sepDashes.isPrefixOf (x :: b') = true
        · rw [findSub_of_isPrefixOf hg] at h
          exact absurd h (by simp)
        · constructor
          · exact Bool.eq_false_iff.mpr hg
          · rw [findSub_cons_of_not hg] at h
            exact Option.map_eq_none'.mp h
      have hguard : sepDashes.isPrefixOf
          (x :: (b' ++ '\n' :: ['-', '-'])) = false := by
        match b' with
        | [] => simp [sepDashes, List.isPrefixOf]
        | [y] => simp [sepDashes, List.isPrefixOf]
        | y :: z :: b'' =>
            have htake : (x :: (y :: z :: b'' ++ '\n' :: ['-', '-'])).take 3 =
                (x :: y :: z :: b'').take 3 := by
              simp
            rw [isPrefixOf_ds_congr htake]
            exact hsplit.1
      have hnot : ¬sepDashes.isPrefixOf
          (x :: (b' ++ '\n' :: ['-', '-'])) = true := by
        rw [hguard]
        simp
      show findSub sepDashes (x :: (b' ++ '\n' :: ['-', '-'])) = none
      rw [findSub_cons_of_not hnot, ih hsplit.2]
      rfl

theorem findSub_ds_cons_nl {s : Str} (h : findSub sepDashes s = none) :
    findSub sepDashes ('\n' :: s) = none := by
  have hnot : ¬sepDashes.isPrefixOf ('\n' :: s) = true := by
    simp [sepDashes, List.isPrefixOf]
  rw [findSub_cons_of_not hnot, h]
  rfl

theorem lstrip_cons_nl (s : Str) : lstrip ('\n' :: s) = lstrip s := by
  unfold lstrip
  rw [List.dropWhile_cons_of_pos (by decide)]

theorem pyStrip_cons_nl (s : Str) : pyStrip ('\n' :: s) = pyStrip s := by
  unfold pyStrip
  rw [lstrip_cons_nl]

theorem rstrip_append_nl (s : Str) : rstrip (s ++ ['\n']) = rstrip s := by
  unfold rstrip
  rw [List.reverse_append]
  simp only [List.reverse_cons, List.reverse_nil, List.nil_append,
    List.singleton_append]
  rw [List.dropWhile_cons_of_pos (by decide)]

theorem pyStrip_append_nl (s : Str) : pyStrip (s ++ ['\n']) = pyStrip s := by
  unfold pyStrip lstrip
  rw [List.dropWhile_append]
  by_cases he : (s.dropWhile pyIsSpace).isEmpty
  · rw [if_pos he]
    have h1 : List.dropWhile pyIsSpace ['\n'] = ([] : Str) := by decide
    have h2 : s.dropWhile pyIsSpace = [] := List.isEmpty_iff.mp he
    rw [h1, h2]
  · rw [if_neg he]
    exact rstrip_append_nl _

theorem intercalate_single (sep b : Str) : List.intercalate sep [b] = b := by
  simp [List.intercalate, List.intersperse]

theorem intercalate_two (sep b c : Str) (rest : List Str) :
    List.intercalate sep (b :: c :: rest) =
      b ++ sep ++ List.intercalate sep (c :: rest) := by
  simp [List.intercalate, List.intersperse, List.append_assoc]

theorem load_prompts_tail (blocks : List Str)
    (h : ∀ b ∈ blocks, findSub sepDashes b = none) :
    ((pySplit '-' ['-', '-']
        ('\n' :: List.intercalate sepLine blocks)).map pyStrip).filter
      (fun b => b ≠ []) =
    (blocks.map pyStrip).filter (fun b => b ≠ []) := by
  induction blocks with
  | nil =>
      have hf : findSub ('-' :: ['-', '-']) ['\n'] = none := by decide
      rw [show List.intercalate sepLine ([] : List Str) = [] from rfl]
      rw [pySplit_of_none hf]
      decide
  | cons b rest ih =>
      cases rest with
      | nil =>
          have hf : findSub ('-' :: ['-', '-']) ('\n' :: b) = none :=
            findSub_ds_cons_nl (h b (List.mem_cons_self b []))
          rw [intercalate_single, pySplit_of_none hf]
          simp only [List.map_cons, List.map_nil, pyStrip_cons_nl]
      | cons c rest' =>
          rw [intercalate_two]
          have hre : ('\n' ::
              (b ++ sepLine ++ List.intercalate sepLine (c :: rest'))) =
              (('\n' :: b ++ ['\n']) ++ sepDashes ++
                ('\n' :: List.intercalate sepLine (c :: rest'))) := by
            simp [sepLine, sepDashes]
          rw [hre]
          have ha : findSub sepDashes
              (('\n' :: b ++ ['\n']) ++ ['-', '-']) = none := by
            have h1 : findSub sepDashes (b ++ '\n' :: ['-', '-']) = none :=
              findSub_ds_extend (h b (List.mem_cons_self b _))
            have h2 := findSub_ds_cons_nl h1
            have hsh : (('\n' :: b ++ ['\n']) ++ ['-', '-'] : Str) =
                '\n' :: (b ++ '\n' :: ['-', '-']) := by
              simp
            rw [hsh]
            exact h2
          rw [pySplit_peel ha]
          have hsb : pyStrip ('\n' :: b ++ ['\n']) = pyStrip b := by
            rw [show ('\n' :: b ++ ['\n'] : Str) = '\n' :: (b ++ ['\n'])
              from rfl]
            rw [pyStrip_cons_nl, pyStrip_append_nl]
          rw [List.map_cons, List.filter_cons, hsb]
          rw [ih (fun x hx => h x (List.mem_cons_of_mem b hx))]
          simp only [List.map_cons, List.filter_cons]

/-- C3 (amended): splitting happens at every occurrence of the
substring of three dashes, not only at lines consisting solely of the
separator; for well-formed text in which the separator occurs only as
full separator lines — equivalently, for text assembled from blocks
that contain no three-dash substring, joined by separator lines —
parsing yields exactly one record per nonblank block, in block order,
with blank blocks dropped. -/
theorem c3_split_blocks (blocks : List Str)
    (h : ∀ b ∈ blocks, findSub sepDashes b = none) :
    load_prompts (List.intercalate sepLine blocks) =
      (blocks.map pyStrip).filter (fun b => b ≠ []) ∧
    create_prompts (List.intercalate sepLine blocks) =
      ((blocks.map pyStrip).filter (fun b => b ≠ [])).map
        parse_prompt_block := by
  have hload : load_prompts (List.intercalate sepLine blocks) =
      (blocks.map pyStrip).filter (fun b => b ≠ []) := by
    cases blocks with
    | nil => decide
    | cons b rest =>
        cases rest with
        | nil =>
            rw [intercalate_single]
            unfold load_prompts
            rw [pySplit_of_none (h b (List.mem_cons_self b []))]
        | cons c rest' =>
            rw [intercalate_two]
            unfold load_prompts
            have hre :
                (b ++ sepLine ++ List.intercalate sepLine (c :: rest')) =
                ((b ++ ['\n']) ++ sepDashes ++
                  ('\n' :: List.intercalate sepLine (c :: rest'))) := by
              simp [sepLine, sepDashes]
            rw [hre]
            have ha : findSub sepDashes
                ((b ++ ['\n']) ++ ['-', '-']) = none := by
              have h1 : findSub sepDashes (b ++ '\n' :: ['-', '-']) =
                  none := findSub_ds_extend (h b (List.mem_cons_self b _))
              have hsh : ((b ++ ['\n']) ++ ['-', '-'] : Str) =
                  b ++ '\n' :: ['-', '-'] := by
                simp
              rw [hsh]
              exact h1
            rw [pySplit_peel ha]
            rw [List.map_cons, List.filter_cons, pyStrip_append_nl]
            rw [load_prompts_tail (c :: rest')
              (fun x hx => h x (List.mem_cons_of_mem b hx))]
            simp only [List.map_cons, List.filter_cons]
  refine ⟨hload, ?_⟩
  unfold create_prompts
  rw [hload]

/-- C3 counterexample: the code splits on the three-dash substring
anywhere, not only at separator lines.  The one-line text "a---b" has a
single nonblank separator-line-delimited block, yet parsing yields two
records. -/
theorem c3_counterexample :
    (specSepLineBlocks (String.toList "a---b")).length = 1 ∧
    load_prompts (String.toList "a---b") =
      [String.toList "a", String.toList "b"] ∧
    (create_prompts (String.toList "a---b")).length = 2 := by
  refine ⟨by decide, by decide, by decide⟩

/-- Witness for C3 at a concrete text of three blocks (one blank):
exactly the two nonblank blocks yield records, in order. -/
theorem c3_witness :
    load_prompts (List.intercalate sepLine
      [String.toList "Name: A", [' '], String.toList "Name: B"]) =
      [String.toList "Name: A", String.toList "Name: B"] ∧
    (create_prompts (List.intercalate sepLine
      [String.toList "Name: A", [' '], String.toList "Name: B"])).length =
      2 := by
  have h := c3_split_blocks
    [String.toList "Name: A", [' '], String.toList "Name: B"] (by decide)
  constructor
  · rw [h.1]
    decide
  · rw [h.2]
    decide
